import Mathlib

/-!
# Weather reminder assistant: precipitation engine

A shallow embedding of `main.go` (package `main`) and the properties of its
location table, precipitation classifier, retrying fetcher, acquisition
orchestrator and forecast aggregator.

Conventions of the embedding

* Go `string` values are Lean `String`s.  The provider's JSON is decoded by
  `encoding/json`, which only produces valid UTF-8, and on valid UTF-8 the
  byte-wise substring test of `strings.Contains` coincides with the test on
  code points used here.
* Package-level state (`testMode`, `config`) and the wall clock (`time.Now()`)
  are explicit arguments.
* The iteration order of a Go `map` is unspecified; the order in which a
  `range` visits the entries is an explicit argument.
* `float64` values are finite fractions, infinities or NaN (`Float64`).  Parsing,
  sums and quotients round the exact result to binary64, to nearest, ties to even
  (`roundPos`); `%.1f` rounds the exact binary value to the nearest tenth, ties to
  even.
* `fetchWeatherData` is modelled with its observable steps (requests and sleeps);
  a sleep of `time.Second * time.Duration(i+1)` is recorded as `i + 1` seconds.
-/

set_option autoImplicit false
set_option exponentiation.threshold 10000000
set_option maxRecDepth 8000

namespace WeatherReminder

/-! ## Strings -/

/-- Whether `sub` is a prefix of `s` (character lists). -/
def hasPrefixChars : List Char → List Char → Bool
  | _, [] => true
  | [], _ :: _ => false
  | c :: cs, d :: ds => c == d && hasPrefixChars cs ds

/-- Left-to-right search for `sub` in `s` (character lists). -/
def containsChars : List Char → List Char → Bool
  | [], sub => hasPrefixChars [] sub
  | c :: cs, sub => hasPrefixChars (c :: cs) sub || containsChars cs sub

/-- Go `strings.Contains(s, substr)`. -/
def stringsContains (s substr : String) : Bool :=
  containsChars s.data substr.data

/-! ## Location table (`cityIdMap`, `getCityID`) -/

/-- The table `cityIdMap`, entries in source order. -/
def cityIdMap : List (String × String) :=
  [ ("北京", "101010100"),
    ("上海", "101020100"),
    ("广州", "101280101"),
    ("深圳", "101280601"),
    ("杭州", "101210101"),
    ("南京", "101190101"),
    ("武汉", "101200101"),
    ("成都", "101270101"),
    ("重庆", "101040100"),
    ("西安", "101110101"),
    ("天津", "101030100"),
    ("苏州", "101190401"),
    ("长沙", "101250101"),
    ("郑州", "101180101"),
    ("济南", "101120101"),
    ("长春", "101060101"),
    ("哈尔滨", "101050101"),
    ("沈阳", "101070101"),
    ("大连", "101070201"),
    ("青岛", "101120201"),
    ("昆明", "101290101"),
    ("南宁", "101280101"),
    ("贵阳", "101260101"),
    ("太原", "101100101"),
    ("合肥", "101220101"),
    ("南昌", "101240101"),
    ("福州", "101230101"),
    ("厦门", "101230201"),
    ("石家庄", "101090101"),
    ("呼和浩特", "101080101"),
    ("银川", "101170101"),
    ("西宁", "101150101"),
    ("拉萨", "101140101"),
    ("乌鲁木齐", "101130101"),
    ("兰州", "101160101"),
    ("海口", "101310101"),
    ("三亚", "101310201"),
    ("台北", "101340101"),
    ("香港", "101320101"),
    ("澳门", "101330101") ]

/-- Go map index `m[key]` with the comma-ok form. -/
def mapLookup (m : List (String × String)) (key : String) : Option String :=
  (m.find? (fun e => e.1 == key)).map (fun e => e.2)

/-- The function `getCityID`.  The remote lookup (HTTP GET, gzip, JSON) is the
argument `remoteLookup`; it is consulted only when the table misses. -/
def getCityID (remoteLookup : String → Except String String) (cityName : String) :
    Except String String :=
  match mapLookup cityIdMap cityName with
  | some cityId => .ok cityId
  | none => remoteLookup cityName

/-! ## Precipitation classifier (`checkWeatherPrecipitation`) -/

/-- The local slice `rainWeather`. -/
def rainWeather : List String :=
  ["雨", "雪", "阵雨", "雷阵雨", "毛毛雨", "小雪", "中雪", "大雪", "暴雪", "雨夹雪"]

/-- The keyword loop of `checkWeatherPrecipitation`: `true` as soon as one keyword
is contained in `text`. -/
def keywordLoop (text : String) : List String → Bool
  | [] => false
  | weatherType :: rest =>
    if stringsContains text weatherType then true else keywordLoop text rest

/-- The function `checkWeatherPrecipitation`. -/
def checkWeatherPrecipitation (text precip : String) : Bool :=
  if keywordLoop text rainWeather then true
  else if precip ≠ "0.0" ∧ precip ≠ "0" then true
  else false

/-! ## Numbers (`float64`, `strconv.ParseFloat`, `%.1f`) -/

/-- Decimal digit test. -/
def isDigit (c : Char) : Bool := decide ('0' ≤ c) && decide (c ≤ '9')

/-- Value of a decimal digit character. -/
def digitVal (c : Char) : Nat := c.toNat - 48

/-- Value of a digit string, most significant digit first. -/
def digitsValue (ds : List Char) : Nat :=
  ds.foldl (fun acc c => acc * 10 + digitVal c) 0

/-- A Go `float64`: a finite value `num / den`, an infinity or a NaN.  Every finite
value built below is a whole multiple of `2 ^ -1074` smaller than `2 ^ 1024` in
magnitude.  The sign of a zero is not represented: the program only compares the
values and renders the quotient of a positive total, so it never observes it. -/
inductive Float64 where
  | finite (num : Int) (den : Nat)
  | inf (neg : Bool)
  | nan
  deriving DecidableEq, Repr

/-- Nearest whole number to `a / b`, ties to the even neighbour. -/
def roundNearestEven (a b : Nat) : Nat :=
  let q := a / b
  let r := a % b
  if 2 * r < b then q
  else if b < 2 * r then q + 1
  else if q % 2 = 0 then q else q + 1

/-- Search for an exponent `k` with `n < 2 ^ 2 ^ k`, upwards from `k`. -/
def findDoubling : Nat → Nat → Nat → Nat
  | 0, k, _ => k
  | fuel + 1, k, n => if n < 2 ^ 2 ^ k then k else findDoubling fuel (k + 1) n

/-- Binary search of the exponent of `n < 2 ^ 2 ^ (k + 1)`. -/
def log2Search : Nat → Nat → Nat
  | 0, n => if 2 ≤ n then 1 else 0
  | k + 1, n =>
    if 2 ^ 2 ^ (k + 1) ≤ n then 2 ^ (k + 1) + log2Search k (n / 2 ^ 2 ^ (k + 1))
    else log2Search k n

/-- The exponent `L` with `2 ^ L ≤ n < 2 ^ (L + 1)` (`0` for `n = 0`). -/
def floorLog2 (n : Nat) : Nat := log2Search (findDoubling n 0 n) n

/-- The scale `2 ^ 1074`: finite `float64` values are whole multiples of `2 ^ -1074`,
the smallest subnormal. -/
def scale64 : Nat := 2 ^ 1074

/-- The overflow bound `2 ^ 1024`, scaled by `scale64`. -/
def limit64 : Nat := 2 ^ 2098

/-- The spacing `2 ^ 971` of the `float64` values of the top binade, scaled by
`scale64`. -/
def topStep : Nat := 2 ^ 2045

/-- IEEE 754 rounding of the positive value `n / d` to binary64, to nearest, ties to
even: `some (m, scale64)` for the result `m / 2 ^ 1074`, `none` when the rounded value
reaches `2 ^ 1024`.  The value is scaled by `2 ^ 1074`; a scaled value of at least
`2 ^ 52` keeps 53 significant bits, a smaller one is rounded to a whole number of
subnormal steps. -/
def roundPos (n d : Nat) : Option (Nat × Nat) :=
  let s := n * scale64
  let q := floorLog2 (s / d) - 52
  let m := roundNearestEven s (d * 2 ^ q)
  if limit64 ≤ m * 2 ^ q then none else some (m * 2 ^ q, scale64)

/-- Rounding of the exact value `num / den` (`den > 0`) to `float64`; a magnitude out
of range gives an infinity. -/
def roundFloat64 (num : Int) (den : Nat) : Float64 :=
  if num = 0 then .finite 0 1
  else
    match roundPos num.natAbs den with
    | some r => .finite (if num < 0 then -(r.1 : Int) else (r.1 : Int)) r.2
    | none => .inf (decide (num < 0))

namespace Float64

/-- The value `0`, initial value of `var totalPrecip float64`. -/
def zero : Float64 := .finite 0 1

/-- Sum `a + b` of Go `float64` values. -/
def add : Float64 → Float64 → Float64
  | .finite a b, .finite c d => roundFloat64 (a * d + c * b) (b * d)
  | .nan, _ => .nan
  | _, .nan => .nan
  | .inf s, .inf t => if s = t then .inf s else .nan
  | .inf s, .finite _ _ => .inf s
  | .finite _ _, .inf t => .inf t

/-- Conversion `float64(n)` of a non-negative Go `int`, as a fraction: `n` rounded
to binary64 (exact below `2 ^ 53`; a Go `int` is far below the overflow bound). -/
def ofLen (n : Nat) : Nat × Nat :=
  if n = 0 then (0, 1) else (roundPos n 1).getD (n, 1)

/-- Quotient `x / float64(n)` for a length `n`. -/
def divLen (x : Float64) (n : Nat) : Float64 :=
  match x with
  | .finite a b =>
    if (ofLen n).1 = 0 then
      (if a = 0 then .nan else .inf (decide (a < 0)))
    else roundFloat64 (a * (ofLen n).2) (b * (ofLen n).1)
  | .inf s => .inf s
  | .nan => .nan

/-- Comparison `x > 0`. -/
def isPos : Float64 → Bool
  | .finite a _ => decide (0 < a)
  | .inf s => !s
  | .nan => false

/-- Comparison `x < y`. -/
def lt : Float64 → Float64 → Bool
  | .finite a b, .finite c d => decide (a * (d : Int) < c * (b : Int))
  | .nan, _ => false
  | _, .nan => false
  | .inf s, .inf t => s && !t
  | .inf s, .finite _ _ => s
  | .finite _ _, .inf t => !t

/-- Whether the value is a zero. -/
def isZero : Float64 → Bool
  | .finite a _ => decide (a = 0)
  | _ => false

end Float64

/-- Go `commonPrefixLenIgnoreCase(s, prefix) == len(prefix) == len(s)`: `s` equals
the lower-case word `word` up to the case of ASCII letters. -/
def equalsIgnoreCase : List Char → List Char → Bool
  | [], [] => true
  | c :: cs, p :: ps =>
    (c == p || (decide ('A' ≤ c) && decide (c ≤ 'Z') && c.toNat + 32 == p.toNat)) &&
      equalsIgnoreCase cs ps
  | _, _ => false

/-- Go `special` of package `strconv`, for a whole string: the spellings of the
infinities (with an optional sign) and of NaN (without). -/
def special (s : List Char) : Option Float64 :=
  match s with
  | '+' :: r =>
    if equalsIgnoreCase r "inf".data || equalsIgnoreCase r "infinity".data
    then some (.inf false) else none
  | '-' :: r =>
    if equalsIgnoreCase r "inf".data || equalsIgnoreCase r "infinity".data
    then some (.inf true) else none
  | _ =>
    if equalsIgnoreCase s "inf".data || equalsIgnoreCase s "infinity".data
    then some (.inf false)
    else if equalsIgnoreCase s "nan".data then some .nan else none

/-- Hexadecimal digit test. -/
def isHexDigit (c : Char) : Bool :=
  isDigit c || (decide ('a' ≤ c) && decide (c ≤ 'f')) || (decide ('A' ≤ c) && decide (c ≤ 'F'))

/-- Value of a hexadecimal digit character. -/
def hexVal (c : Char) : Nat :=
  if isDigit c then c.toNat - 48
  else if decide ('a' ≤ c) && decide (c ≤ 'f') then c.toNat - 87
  else c.toNat - 55

/-- The loop of Go `underscoreOK`; `saw` is `'^'`, `'0'`, `'_'` or `'!'`. -/
def underscoreLoop (hex : Bool) : List Char → Char → Bool
  | [], saw => saw != '_'
  | c :: rest, saw =>
    if isDigit c || (hex && isHexDigit c) then underscoreLoop hex rest '0'
    else if c == '_' then
      (if saw != '0' then false else underscoreLoop hex rest '_')
    else if saw == '_' then false
    else underscoreLoop hex rest '!'

/-- Go `underscoreOK` of package `strconv`. -/
def underscoreOK (s : List Char) : Bool :=
  let body : List Char :=
    match s with
    | '-' :: r => r
    | '+' :: r => r
    | _ => s
  match body with
  | '0' :: x :: r =>
    if x == 'b' || x == 'B' || x == 'o' || x == 'O' || x == 'x' || x == 'X' then
      underscoreLoop (x == 'x' || x == 'X') r '0'
    else underscoreLoop false body '^'
  | _ => underscoreLoop false body '^'

/-- The exponent accumulated by Go `readFloat` from the digits of the exponent: a
digit is taken in only while the value is below 10000. -/
def exponentValue (ds : List Char) : Nat :=
  ds.foldl (fun e c => if e < 10000 then e * 10 + digitVal c else e) 0

/-- The optional exponent part of Go `readFloat`, starting at the exponent
character: the signed exponent and the rest, `none` when it is malformed. -/
def readExponent (r : List Char) : Option (Int × List Char) :=
  let signed : Bool × List Char :=
    match r with
    | '+' :: t => (false, t)
    | '-' :: t => (true, t)
    | _ => (false, r)
  match signed.2 with
  | c :: _ =>
    if isDigit c then
      let ds := signed.2.span fun c => isDigit c || c == '_'
      let e : Int := (exponentValue (ds.1.filter fun c => c != '_') : Int)
      some (if signed.1 then -e else e, ds.2)
    else none
  | [] => none

/-- The value `m * base ^ e` as a fraction. -/
def scaled (m base : Nat) (e : Int) : Nat × Nat :=
  if 0 ≤ e then (m * base ^ e.toNat, 1) else (m, base ^ (-e).toNat)

/-- Go `readFloat` of package `strconv`, for a whole string: the sign and the exact
value written, as a fraction; `none` when the string is not a well-formed decimal or
hexadecimal floating-point number. -/
def readFloat (s : List Char) : Option (Bool × Nat × Nat) :=
  let signed : Bool × List Char :=
    match s with
    | '+' :: r => (false, r)
    | '-' :: r => (true, r)
    | _ => (false, s)
  let hex : Bool :=
    match signed.2 with
    | '0' :: x :: _ :: _ => x == 'x' || x == 'X'
    | _ => false
  let body := if hex then signed.2.drop 2 else signed.2
  let isMant : Char → Bool := fun c => (if hex then isHexDigit c else isDigit c) || c == '_'
  let ip := body.span isMant
  let fp : List Char × List Char :=
    match ip.2 with
    | '.' :: r => r.span isMant
    | _ => ([], ip.2)
  let intDigits := ip.1.filter fun c => c != '_'
  let fracDigits := fp.1.filter fun c => c != '_'
  if intDigits.length + fracDigits.length = 0 then none
  else
    let ex : Option (Int × List Char) :=
      match fp.2 with
      | c :: r =>
        if (if hex then c == 'p' || c == 'P' else c == 'e' || c == 'E') then readExponent r
        else if hex then none else some (0, c :: r)
      | [] => if hex then none else some (0, [])
    match ex with
    | none => none
    | some (e, rest) =>
      if rest ≠ [] then none
      else if !underscoreOK s then none
      else if hex then
        let m := (intDigits ++ fracDigits).foldl (fun acc c => acc * 16 + hexVal c) 0
        some (signed.1, scaled m 2 (e - 4 * (fracDigits.length : Int)))
      else
        some (signed.1, scaled (digitsValue (intDigits ++ fracDigits)) 10
          (e - (fracDigits.length : Int)))

/-- Go `strconv.ParseFloat(s, 64)`; `none` is the error result (a syntax error, or a
range error when the value rounds to an infinity). -/
def parseFloat (s : String) : Option Float64 :=
  match special s.data with
  | some v => some v
  | none =>
    match readFloat s.data with
    | none => none
    | some (neg, v) =>
      match roundFloat64 (if neg then -(v.1 : Int) else (v.1 : Int)) v.2 with
      | .finite a b => some (.finite a b)
      | _ => none

/-- Number of tenths nearest to `num / den`, ties to the even neighbour. -/
def roundTenths (num den : Nat) : Nat := roundNearestEven (num * 10) den

/-- Go `fmt.Sprintf("%.1f", x)`. -/
def sprintf1 : Float64 → String
  | .finite num den =>
    let tenths := roundTenths num.natAbs den
    (if num < 0 then "-" else "") ++ Nat.repr (tenths / 10) ++ "." ++ Nat.repr (tenths % 10)
  | .inf neg => if neg then "-Inf" else "+Inf"
  | .nan => "NaN"

/-! ## Time (`time.Parse`, `Time.Sub`, `Time.Format`) -/

/-- A Go `time.Time`: the instant in nanoseconds since the Unix epoch and the
offset east of UTC, in seconds, of its location. -/
structure Time where
  unixNano : Int
  offset : Int
  deriving DecidableEq, Repr

/-- Go `time.Duration` of three hours, in nanoseconds. -/
def threeHours : Int := 3 * 3600 * 1000000000

/-- Largest `time.Duration`. -/
def maxDuration : Int := 2 ^ 63 - 1

/-- Smallest `time.Duration`. -/
def minDuration : Int := -(2 ^ 63)

/-- Go `t.Sub(u)`: the difference of the instants, saturated to the range of
`time.Duration`. -/
def timeSub (t u : Time) : Int :=
  let d := t.unixNano - u.unixNano
  if d < minDuration then minDuration
  else if maxDuration < d then maxDuration
  else d

/-- Two-digit rendering with a leading zero. -/
def pad2 (n : Nat) : String :=
  if n < 10 then "0" ++ Nat.repr n else Nat.repr n

/-- Go `t.Format("15:04")`: hour and minute on the clock of the location of `t`. -/
def timeFormat (t : Time) : String :=
  let localSec : Int := Int.fdiv t.unixNano 1000000000 + t.offset
  let secOfDay : Nat := (Int.fmod localSec 86400).toNat
  pad2 (secOfDay / 3600) ++ ":" ++ pad2 (secOfDay % 3600 / 60)

/-- Go `getnum` of package `time`: one or two leading digits (exactly two when `fixed`). -/
def getnum (s : List Char) (fixed : Bool) : Option (Nat × List Char) :=
  match s with
  | [] => none
  | [c0] =>
    if !isDigit c0 then none
    else if fixed then none
    else some (digitVal c0, [])
  | c0 :: c1 :: rest =>
    if !isDigit c0 then none
    else if !isDigit c1 then (if fixed then none else some (digitVal c0, c1 :: rest))
    else some (digitVal c0 * 10 + digitVal c1, rest)

/-- Leap years of the Gregorian calendar. -/
def isLeap (year : Nat) : Bool :=
  year % 4 == 0 && (year % 100 != 0 || year % 400 == 0)

/-- Go `daysIn`. -/
def daysIn (month year : Nat) : Nat :=
  if month == 2 then (if isLeap year then 29 else 28)
  else if month == 4 || month == 6 || month == 9 || month == 11 then 30
  else 31

/-- Days from 0000-01-01 to the first day of `year`. -/
def daysBeforeYear (year : Nat) : Nat :=
  365 * year + (year + 3) / 4 - (year + 99) / 100 + (year + 399) / 400

/-- Days from the first day of `year` to the first day of `month`. -/
def daysBeforeMonth (month year : Nat) : Nat :=
  ((List.range (month - 1)).map (fun m => daysIn (m + 1) year)).sum

/-- Seconds since the Unix epoch of a civil date and time in UTC (Go `Date(..., UTC)`). -/
def unixSeconds (year month day hour min : Nat) : Int :=
  (((daysBeforeYear year + daysBeforeMonth month year + (day - 1) : Nat) : Int) - 719528) * 86400
    + ((hour * 3600 + min * 60 : Nat) : Int)

/-- Expect the literal character `c` of the layout. -/
def expectChar (c : Char) : List Char → Option (List Char)
  | d :: rest => if d == c then some rest else none
  | [] => none

/-- Go `time.Parse("2006-01-02T15:04-07:00", value)`; `none` is the error result. -/
def timeParse (value : String) : Option Time :=
  match value.data with
  | y0 :: y1 :: y2 :: y3 :: v1 =>
    if !(isDigit y0 && isDigit y1 && isDigit y2 && isDigit y3) then none else
    let year := digitsValue [y0, y1, y2, y3]
    (expectChar '-' v1).bind fun v2 =>
    (getnum v2 true).bind fun (month, v3) =>
    if month = 0 ∨ 12 < month then none else
    (expectChar '-' v3).bind fun v4 =>
    (getnum v4 true).bind fun (day, v5) =>
    (expectChar 'T' v5).bind fun v6 =>
    (getnum v6 false).bind fun (hour, v7) =>
    if 24 ≤ hour then none else
    (expectChar ':' v7).bind fun v8 =>
    (getnum v8 true).bind fun (min, v9) =>
    if 60 ≤ min then none else
    match v9 with
    | [sign, h0, h1, colon, m0, m1] =>
      if colon != ':' then none else
      (getnum [h0, h1] true).bind fun (hr, _) =>
      (getnum [m0, m1] true).bind fun (mm, _) =>
      if 24 < hr ∨ 60 < mm then none else
      let zone : Int := (((hr * 60 + mm) * 60 : Nat) : Int)
      let zoneOffset : Option Int :=
        if sign == '+' then some zone else if sign == '-' then some (-zone) else none
      zoneOffset.bind fun off =>
      if day < 1 ∨ daysIn month year < day then none else
      some ⟨(unixSeconds year month day hour min - off) * 1000000000, off⟩
    | _ => none
  | _ => none

/-! ## Records -/

/-- The anonymous struct of the field `Now` (shared by `WeatherResponse` and
`CurrentWeatherResponse`). -/
structure NowData where
  ObsTime : String := ""
  Temp : String := ""
  FeelsLike : String := ""
  Icon : String := ""
  Text : String := ""
  Wind360 : String := ""
  WindDir : String := ""
  WindScale : String := ""
  WindSpeed : String := ""
  Humidity : String := ""
  Precip : String := ""
  Pressure : String := ""
  Cloud : String := ""
  Dew : String := ""
  deriving DecidableEq, Repr

/-- The anonymous struct of the elements of `WeatherResponse.Hourly`. -/
structure HourlyEntry where
  FxTime : String := ""
  Temp : String := ""
  Text : String := ""
  Precip : String := ""
  Wind360 : String := ""
  WindDir : String := ""
  WindScale : String := ""
  WindSpeed : String := ""
  deriving DecidableEq, Repr

/-- The struct `WeatherResponse`. -/
structure WeatherResponse where
  Code : String := ""
  UpdateTime : String := ""
  FXLink : String := ""
  Now : NowData := {}
  Hourly : List HourlyEntry := []
  HasCurrentPrecipitation : Bool := false
  deriving DecidableEq, Repr

/-- The struct `CurrentWeatherResponse`. -/
structure CurrentWeatherResponse where
  Code : String := ""
  UpdateTime : String := ""
  FXLink : String := ""
  Now : NowData := {}
  deriving DecidableEq, Repr

/-- The struct `PrecipitationForecast`. -/
structure PrecipitationForecast where
  WillPrecipitate : Bool := false
  StartTime : String := ""
  EndTime : String := ""
  WeatherType : String := ""
  Intensity : String := ""
  PrecipAmount : String := ""
  deriving DecidableEq, Repr

/-- The element type of the local slice `precipitationPeriods`. -/
structure Period where
  startTime : String
  endTime : String
  weather : String
  precip : String
  deriving DecidableEq, Repr

/-! ## Forecast aggregator (`getPrecipitationForecast`) -/

/-- The first loop of `getPrecipitationForecast`, `for _, hour := range weather.Hourly`,
with the slice `precipitationPeriods` built so far as accumulator. -/
def scanHourly (now : Time) : List HourlyEntry → List Period → List Period
  | [], periods => periods
  | hour :: rest, periods =>
    match timeParse hour.FxTime with
    | none => scanHourly now rest periods
    | some hourTime =>
      let timeDiff := timeSub hourTime now
      if timeDiff > 0 ∧ timeDiff ≤ threeHours then
        if checkWeatherPrecipitation hour.Text hour.Precip then
          scanHourly now rest (periods ++
            [{ startTime := timeFormat hourTime, endTime := timeFormat hourTime,
               weather := hour.Text, precip := hour.Precip }])
        else scanHourly now rest periods
      else scanHourly now rest periods

/-- Go `weatherTypes[key]++` on a `map[string]int`, the map being the list of its
entries. -/
def mapIncr : List (String × Nat) → String → List (String × Nat)
  | [], key => [(key, 1)]
  | (k, c) :: rest, key =>
    if k = key then (k, c + 1) :: rest else (k, c) :: mapIncr rest key

/-- The second loop, `for _, period := range precipitationPeriods`, with
`weatherTypes` and `totalPrecip` as accumulators. -/
def tallyLoop :
    List Period → List (String × Nat) → Float64 → List (String × Nat) × Float64
  | [], weatherTypes, totalPrecip => (weatherTypes, totalPrecip)
  | period :: rest, weatherTypes, totalPrecip =>
    let weatherTypes := mapIncr weatherTypes period.weather
    match parseFloat period.precip with
    | some precip => tallyLoop rest weatherTypes (totalPrecip.add precip)
    | none => tallyLoop rest weatherTypes totalPrecip

/-- The third loop, `for weather, count := range weatherTypes`, over the entries in
the order the `range` visits them, with `mainWeather` and `maxCount` as accumulators. -/
def maxLoop : List (String × Nat) → String → Nat → String
  | [], mainWeather, _ => mainWeather
  | (weather, count) :: rest, mainWeather, maxCount =>
    if count > maxCount then maxLoop rest weather count
    else maxLoop rest mainWeather maxCount

/-- The intensity ladder of `getPrecipitationForecast`. -/
def intensityOf (avgPrecip : String) : String :=
  match parseFloat avgPrecip with
  | some precipFloat =>
    if precipFloat.lt (.finite 25 10) then "小雨"
    else if precipFloat.lt (.finite 10 1) then "中雨"
    else if precipFloat.lt (.finite 25 1) then "大雨"
    else "暴雨"
  | none => ""

/-- The function `getPrecipitationForecast`.  `testMode` is the package variable,
`now` the value of `time.Now()`, and `rangeOrder` the order in which the `range`
over the map `weatherTypes` visits its entries. -/
def getPrecipitationForecast (testMode : Bool)
    (rangeOrder : List (String × Nat) → List (String × Nat)) (now : Time)
    (weather : WeatherResponse) : PrecipitationForecast :=
  if testMode then
    { WillPrecipitate := true, StartTime := "15:30", EndTime := "18:30",
      WeatherType := "小雨", Intensity := "轻到中雨", PrecipAmount := "5-15mm" }
  else if weather.HasCurrentPrecipitation then
    { WillPrecipitate := true, StartTime := "当前", EndTime := "正在降水",
      WeatherType := weather.Now.Text, Intensity := "当前降水",
      PrecipAmount := weather.Now.Precip ++ "mm" }
  else
    match scanHourly now weather.Hourly [] with
    | [] => { WillPrecipitate := false }
    | first :: more =>
      let precipitationPeriods := first :: more
      let startTime := first.startTime
      let endTime := (precipitationPeriods.getLast (List.cons_ne_nil first more)).endTime
      let tally := tallyLoop precipitationPeriods [] Float64.zero
      let mainWeather := maxLoop (rangeOrder tally.1) "" 0
      let totalPrecip := tally.2
      let avgPrecip :=
        if totalPrecip.isPos then sprintf1 (totalPrecip.divLen precipitationPeriods.length)
        else ""
      let intensity := intensityOf avgPrecip
      { WillPrecipitate := true, StartTime := startTime, EndTime := endTime,
        WeatherType := mainWeather, Intensity := intensity,
        PrecipAmount := avgPrecip ++ "mm" }

/-! ## Retrying fetcher (`fetchWeatherData`) -/

deriving instance DecidableEq for Except

/-- What one `client.Get(url)` yields: a transport error, or a response with its
status code and its body (`none` when `io.ReadAll` fails). -/
inductive GetResult where
  | transportError
  | response (statusCode : Nat) (body : Option String)
  deriving DecidableEq, Repr

/-- The observable steps of `fetchWeatherData`: a request, numbered from 1, and a
`time.Sleep` of a number of seconds. -/
inductive Event where
  | request (attempt : Nat)
  | sleep (seconds : Nat)
  deriving DecidableEq, Repr

/-- The errors `fetchWeatherData` returns, one constructor per `fmt.Errorf`. -/
inductive FetchError where
  | requestFailed
  | badStatus (statusCode : Nat)
  | readFailed
  | decodeFailed
  | providerCode (code : String)
  | maxRetriesReached
  deriving DecidableEq, Repr

/-- The part of the loop body of `fetchWeatherData` after a response was obtained. -/
def handleResponse {α : Type} (unmarshal : String → Option α) (codeOf : α → String)
    (statusCode : Nat) (body : Option String) : Except FetchError α :=
  if statusCode ≠ 200 then .error (.badStatus statusCode)
  else
    match body with
    | none => .error .readFailed
    | some b =>
      match unmarshal b with
      | none => .error .decodeFailed
      | some v => if codeOf v ≠ "200" then .error (.providerCode (codeOf v)) else .ok v

/-- The loop `for i := 0; i < config.App.MaxRetries; i++` of `fetchWeatherData`;
the first argument counts the iterations left, `i` is the loop variable. -/
def fetchLoop {α : Type} (maxRetries : Int) (get : Nat → GetResult)
    (unmarshal : String → Option α) (codeOf : α → String) :
    Nat → Nat → List Event × Except FetchError α
  | 0, _ => ([], .error .maxRetriesReached)
  | left + 1, i =>
    match get i with
    | .transportError =>
      if (i : Int) = maxRetries - 1 then ([.request (i + 1)], .error .requestFailed)
      else
        let r := fetchLoop maxRetries get unmarshal codeOf left (i + 1)
        (.request (i + 1) :: .sleep (i + 1) :: r.1, r.2)
    | .response statusCode body =>
      ([.request (i + 1)], handleResponse unmarshal codeOf statusCode body)

/-- The function `fetchWeatherData`: the steps taken and the value returned.
`get i` is the outcome of the request of iteration `i`, `unmarshal` stands for
`json.Unmarshal` into the result, `codeOf` reads its field `Code`. -/
def fetchWeatherData {α : Type} (maxRetries : Int) (get : Nat → GetResult)
    (unmarshal : String → Option α) (codeOf : α → String) :
    List Event × Except FetchError α :=
  fetchLoop maxRetries get unmarshal codeOf maxRetries.toNat 0

/-! ## Acquisition orchestrator (`fetchWeather`) -/

/-- The fields of `config` read by the acquisition. -/
structure Config where
  APIKey : String
  City : String
  APIHost : String
  MaxRetries : Int

/-- The errors `fetchWeather` returns. -/
inductive AcquireError where
  | cityId (msg : String)
  | current (e : FetchError)
  | hourly (e : FetchError)
  deriving DecidableEq, Repr

/-- The function `fetchWeather`.  `httpGet url i` is the outcome of request `i` for
`url`; the two decoders stand for `json.Unmarshal`. -/
def fetchWeather (config : Config) (remoteLookup : String → Except String String)
    (httpGet : String → Nat → GetResult)
    (unmarshalCurrent : String → Option CurrentWeatherResponse)
    (unmarshalWeather : String → Option WeatherResponse)
    (_cityName : String) : Except AcquireError WeatherResponse :=
  match getCityID remoteLookup config.City with
  | .error msg => .error (.cityId msg)
  | .ok cityId =>
    let currentWeatherURL :=
      "https://" ++ config.APIHost ++ "/v7/weather/now?location=" ++ cityId ++ "&key=" ++ config.APIKey
    match (fetchWeatherData config.MaxRetries (httpGet currentWeatherURL) unmarshalCurrent
        (fun v => v.Code)).2 with
    | .error e => .error (.current e)
    | .ok currentWeather =>
      let hourlyURL :=
        "https://" ++ config.APIHost ++ "/v7/weather/24h?location=" ++ cityId ++ "&key=" ++ config.APIKey
      match (fetchWeatherData config.MaxRetries (httpGet hourlyURL) unmarshalWeather
          (fun v => v.Code)).2 with
      | .error e => .error (.hourly e)
      | .ok hourlyWeather =>
        .ok { hourlyWeather with Now := currentWeather.Now, HasCurrentPrecipitation := false }

/-! ## Definitions that follow the wording of the specification -/

/-- The classifier as the specification words it: a keyword occurs in the
description, or the amount text parses to a number that is not zero. -/
def isPrecipitatingSpec (description amountText : String) : Bool :=
  (rainWeather.any fun k => decide (k.data <:+: description.data)) ||
    (match parseFloat amountText with
     | some v => !v.isZero
     | none => false)

/-- Whether `t` lies in the interval `(now, now + 3h]`. -/
def inWindow (now t : Time) : Bool :=
  decide (now.unixNano < t.unixNano) && decide (t.unixNano ≤ now.unixNano + threeHours)

/-- A hit: an hourly entry whose timestamp parses, lies in `(now, now + 3h]`, and
which the classifier flags. -/
def isHit (now : Time) (hour : HourlyEntry) : Bool :=
  match timeParse hour.FxTime with
  | some t => inWindow now t && checkWeatherPrecipitation hour.Text hour.Precip
  | none => false

/-- The hits of an hourly series, in series order. -/
def hits (now : Time) (hourly : List HourlyEntry) : List HourlyEntry :=
  hourly.filter (isHit now)

/-- The `HH:MM` label of the timestamp of an hourly entry (empty when it does not parse). -/
def clockLabel (hour : HourlyEntry) : String :=
  match timeParse hour.FxTime with
  | some t => timeFormat t
  | none => ""

/-- The steps of `n` consecutive failed attempts starting with attempt `i + 1`: each
request is followed by a sleep of as many seconds as the number of the attempt. -/
def retrySteps (i n : Nat) : List Event :=
  (List.range' i n).flatMap fun j => [Event.request (j + 1), Event.sleep (j + 1)]

/-- Number of requests in a run. -/
def attemptsOf (events : List Event) : Nat :=
  events.countP fun e => match e with
    | .request _ => true
    | .sleep _ => false

/-- The sleeps of a run, in seconds, in order. -/
def sleepsOf (events : List Event) : List Nat :=
  events.filterMap fun e => match e with
    | .request _ => none
    | .sleep seconds => some seconds

/-- The descriptions of the hits, in series order. -/
def hitTexts (now : Time) (hourly : List HourlyEntry) : List String :=
  (hits now hourly).map fun h => h.Text

/-- The map `weatherTypes` after counting the descriptions `ds` one by one, starting
from the map `m`. -/
def tallyMap (m : List (String × Nat)) (ds : List String) : List (String × Nat) :=
  ds.foldl mapIncr m

/-- The `float64` total of a list of amount texts: the parsed values are added one
by one, from `0`, in list order; a text that does not parse adds nothing. -/
def floatTotal (amounts : List String) : Float64 :=
  amounts.foldl
    (fun total amount =>
      match parseFloat amount with
      | some v => total.add v
      | none => total)
    Float64.zero

/-- Whether an amount text is without a numeric amount: it does not parse, or it
parses to zero. -/
def zeroOrUnparseable (amount : String) : Bool :=
  match parseFloat amount with
  | none => true
  | some v => v.isZero

/-- The `float64` average amount over a list of hits: the total of their amounts
divided by their number. -/
def floatAverage (hs : List HourlyEntry) : Float64 :=
  (floatTotal (hs.map fun h => h.Precip)).divLen hs.length

/-- The threshold table of the intensity tiers. -/
def tierOf (x : ℚ) : String :=
  if x < 5 / 2 then "小雨"
  else if x < 10 then "中雨"
  else if x < 25 then "大雨"
  else "暴雨"

/-! ## Example data -/

/-- The instant 2024-06-01 08:00 at UTC+8, used in the examples. -/
def exampleNow : Time := ⟨1717200000000000000, 28800⟩

/-- An hourly series seen from `exampleNow`: rain at +1h and +3h, a dry hour at +2h,
and heavy rain at +4h, outside the horizon. -/
def gapSeries : List HourlyEntry :=
  [ { FxTime := "2024-06-01T09:00+08:00", Text := "小雨", Precip := "1.0" },
    { FxTime := "2024-06-01T10:00+08:00", Text := "多云", Precip := "0.0" },
    { FxTime := "2024-06-01T11:00+08:00", Text := "中雨", Precip := "4.0" },
    { FxTime := "2024-06-01T12:00+08:00", Text := "大雨", Precip := "30.0" } ]

/-- A series of rainy hours one hour ahead of `exampleNow`, one for each amount text. -/
def rainSeries (amounts : List String) : List HourlyEntry :=
  amounts.map fun a => { FxTime := "2024-06-01T09:00+08:00", Text := "小雨", Precip := a }

/-- The intensity and the amount of the forecast for `rainSeries amounts`. -/
def rainForecast (amounts : List String) : String × String :=
  ((getPrecipitationForecast false id exampleNow { Hourly := rainSeries amounts }).Intensity,
    (getPrecipitationForecast false id exampleNow { Hourly := rainSeries amounts }).PrecipAmount)

/-- A series with a single hit, of amount 2.46, one hour ahead of `exampleNow`. -/
def driftSeries : List HourlyEntry :=
  [ { FxTime := "2024-06-01T09:00+08:00", Text := "小雨", Precip := "2.46" } ]

/-- A series with two hits flagged by their description alone, one with amount
"0.0" and one with an empty amount. -/
def keywordOnlySeries : List HourlyEntry :=
  [ { FxTime := "2024-06-01T09:00+08:00", Text := "小雨", Precip := "0.0" },
    { FxTime := "2024-06-01T10:00+08:00", Text := "雷阵雨", Precip := "" } ]

/-- A reading of current conditions with light rain. -/
def rainyNow : NowData := { Text := "小雨", Temp := "18", Precip := "1.2" }

/-- A transport that answers every request at once; the body is the endpoint asked. -/
def echoGet (url : String) (_attempt : Nat) : GetResult :=
  .response 200 (some (if stringsContains url "/v7/weather/now" then "now" else "24h"))

/-- A configuration for the examples. -/
def exampleConfig : Config :=
  { APIKey := "k", City := "广州", APIHost := "devapi.qweather.com", MaxRetries := 3 }

/-! ## Auxiliary definitions of the proofs -/

/-- The record the scan appends for a hit. -/
def periodOf (hour : HourlyEntry) : Period :=
  { startTime := clockLabel hour, endTime := clockLabel hour,
    weather := hour.Text, precip := hour.Precip }

/-- The average amount text computed from the periods. -/
def avgText (periods : List Period) : String :=
  if (tallyLoop periods [] Float64.zero).2.isPos then
    sprintf1 ((tallyLoop periods [] Float64.zero).2.divLen periods.length)
  else ""

/-- The count stored for `key` in a map of counts (`0` when absent). -/
def lookupCount (m : List (String × Nat)) (key : String) : Nat :=
  match m.find? (fun e => e.1 = key) with
  | some e => e.2
  | none => 0

/-! ## Lemmas on strings -/

theorem hasPrefixChars_iff (s sub : List Char) : hasPrefixChars s sub = true ↔ sub <+: s := by
  induction s generalizing sub with
  | nil =>
    cases sub with
    | nil => simp [hasPrefixChars]
    | cons d ds => simp [hasPrefixChars]
  | cons c cs ih =>
    cases sub with
    | nil => simp [hasPrefixChars]
    | cons d ds =>
      simp only [hasPrefixChars, Bool.and_eq_true, beq_iff_eq, ih, List.cons_prefix_cons]
      constructor
      · rintro ⟨h1, h2⟩; exact ⟨h1.symm, h2⟩
      · rintro ⟨h1, h2⟩; exact ⟨h1.symm, h2⟩

theorem containsChars_iff (s sub : List Char) : containsChars s sub = true ↔ sub <:+: s := by
  induction s with
  | nil =>
    simp only [containsChars, hasPrefixChars_iff]
    constructor
    · intro h; exact h.isInfix
    · intro h; rw [List.eq_nil_of_infix_nil h]
  | cons c cs ih =>
    simp only [containsChars, Bool.or_eq_true, hasPrefixChars_iff, ih, List.infix_cons_iff]

theorem keywordLoop_iff (text : String) (ks : List String) :
    keywordLoop text ks = true ↔ ∃ k ∈ ks, k.data <:+: text.data := by
  induction ks with
  | nil => simp [keywordLoop]
  | cons k rest ih =>
    simp only [keywordLoop, List.mem_cons, exists_eq_or_imp]
    by_cases hk : stringsContains text k = true
    · have : k.data <:+: text.data := (containsChars_iff _ _).1 hk
      simp [hk, this]
    · have : ¬ k.data <:+: text.data := fun h => hk ((containsChars_iff _ _).2 h)
      simp [hk, this, ih]

/-! ## Lemmas on the scan of the hourly series -/

theorem timeSub_window (t now : Time) :
    (timeSub t now > 0 ∧ timeSub t now ≤ threeHours) ↔
      (now.unixNano < t.unixNano ∧ t.unixNano ≤ now.unixNano + threeHours) := by
  unfold timeSub threeHours minDuration maxDuration
  norm_num
  split_ifs <;> constructor <;> intro h <;> omega

theorem scanHourly_eq (now : Time) (hourly : List HourlyEntry) (periods : List Period) :
    scanHourly now hourly periods = periods ++ (hits now hourly).map periodOf := by
  induction hourly generalizing periods with
  | nil => simp [scanHourly, hits]
  | cons hour rest ih =>
    unfold scanHourly
    cases hp : timeParse hour.FxTime with
    | none =>
      have hh : isHit now hour = false := by simp [isHit, hp]
      simp only [ih, hits, List.filter_cons, hh]
      simp
    | some t =>
      simp only []
      by_cases hw : timeSub t now > 0 ∧ timeSub t now ≤ threeHours
      · have hw2 := (timeSub_window t now).1 hw
        by_cases hc : checkWeatherPrecipitation hour.Text hour.Precip = true
        · have hh : isHit now hour = true := by
            simp [isHit, hp, inWindow, hw2.1, hw2.2, hc]
          have hpo : periodOf hour =
              (⟨timeFormat t, timeFormat t, hour.Text, hour.Precip⟩ : Period) := by
            simp [periodOf, clockLabel, hp]
          rw [if_pos hw, if_pos hc, ih]
          simp [hits, List.filter_cons, hh, hpo]
        · have hh : isHit now hour = false := by
            simp [isHit, hp, hc]
          rw [if_pos hw, if_neg hc, ih]
          simp [hits, List.filter_cons, hh]
      · have hw2 : ¬ (now.unixNano < t.unixNano ∧ t.unixNano ≤ now.unixNano + threeHours) :=
          fun h => hw ((timeSub_window t now).2 h)
        have hh : isHit now hour = false := by
          simp only [isHit, hp, inWindow, Bool.and_eq_false_imp, Bool.and_eq_true,
            decide_eq_true_eq]
          intro h; exact absurd h hw2
        rw [if_neg hw, ih]
        simp [hits, List.filter_cons, hh]

theorem getLast_periodOf (h0 : HourlyEntry) (rest : List HourlyEntry) :
    ((periodOf h0 :: rest.map periodOf).getLast (List.cons_ne_nil _ _)).endTime =
      clockLabel ((h0 :: rest).getLast (List.cons_ne_nil _ _)) := by
  induction rest generalizing h0 with
  | nil => rfl
  | cons h1 more ih => simpa [List.getLast_cons_cons] using ih h1

theorem forecast_of_no_hits (rangeOrder : List (String × Nat) → List (String × Nat))
    (now : Time) (weather : WeatherResponse) (hflag : weather.HasCurrentPrecipitation = false)
    (hno : hits now weather.Hourly = []) :
    getPrecipitationForecast false rangeOrder now weather = { WillPrecipitate := false } := by
  simp [getPrecipitationForecast, hflag, scanHourly_eq, hno]

theorem forecast_of_hits (rangeOrder : List (String × Nat) → List (String × Nat))
    (now : Time) (weather : WeatherResponse) (hflag : weather.HasCurrentPrecipitation = false)
    (hne : hits now weather.Hourly ≠ []) :
    getPrecipitationForecast false rangeOrder now weather =
      { WillPrecipitate := true,
        StartTime := clockLabel ((hits now weather.Hourly).head hne),
        EndTime := clockLabel ((hits now weather.Hourly).getLast hne),
        WeatherType :=
          maxLoop (rangeOrder (tallyLoop ((hits now weather.Hourly).map periodOf) [] Float64.zero).1) "" 0,
        Intensity := intensityOf (avgText ((hits now weather.Hourly).map periodOf)),
        PrecipAmount := avgText ((hits now weather.Hourly).map periodOf) ++ "mm" } := by
  unfold getPrecipitationForecast
  simp only [hflag, scanHourly_eq, List.nil_append, Bool.false_eq_true, if_false]
  generalize hits now weather.Hourly = hs at hne
  cases hs with
  | nil => exact absurd rfl hne
  | cons h0 rest =>
    simp only [List.map_cons, List.head_cons, avgText, List.length_cons, List.length_map]
    congr 1
    exact getLast_periodOf h0 rest

theorem isHit_iff (now : Time) (hour : HourlyEntry) :
    isHit now hour = true ↔
      ∃ t, timeParse hour.FxTime = some t ∧ now.unixNano < t.unixNano ∧
        t.unixNano ≤ now.unixNano + threeHours ∧
        checkWeatherPrecipitation hour.Text hour.Precip = true := by
  unfold isHit
  cases hp : timeParse hour.FxTime with
  | none => simp
  | some t => simp [inWindow, and_assoc]

theorem clockLabel_of_isHit (now : Time) (hour : HourlyEntry) (h : isHit now hour = true) :
    ∃ t, timeParse hour.FxTime = some t ∧ clockLabel hour = timeFormat t := by
  obtain ⟨t, ht, _⟩ := (isHit_iff now hour).1 h
  exact ⟨t, ht, by simp [clockLabel, ht]⟩

theorem hits_eq_nil_iff (now : Time) (hourly : List HourlyEntry) :
    hits now hourly = [] ↔ ¬ ∃ hour ∈ hourly, isHit now hour = true := by
  simp [hits, List.filter_eq_nil_iff]

/-! ## Lemmas on the retry loop -/

theorem retrySteps_succ (i n : Nat) :
    retrySteps i (n + 1) = Event.request (i + 1) :: Event.sleep (i + 1) :: retrySteps (i + 1) n := by
  simp [retrySteps, List.range'_succ]

theorem attemptsOf_retrySteps (i n : Nat) : attemptsOf (retrySteps i n) = n := by
  induction n generalizing i with
  | zero => simp [retrySteps, attemptsOf]
  | succ n ih =>
    have h := ih (i + 1)
    rw [retrySteps_succ]
    simp only [attemptsOf] at h ⊢
    simp [List.countP_cons, h]

theorem sleepsOf_retrySteps (i n : Nat) : sleepsOf (retrySteps i n) = List.range' (i + 1) n := by
  induction n generalizing i with
  | zero => simp [retrySteps, sleepsOf]
  | succ n ih =>
    have h := ih (i + 1)
    rw [retrySteps_succ]
    simp only [sleepsOf] at h ⊢
    simp [List.filterMap_cons, h, List.range'_succ]

theorem fetchLoop_response {α : Type} (N : Nat) (get : Nat → GetResult)
    (unmarshal : String → Option α) (codeOf : α → String) (k statusCode : Nat)
    (body : Option String) (hk : k < N) (hget : get k = .response statusCode body) :
    ∀ left i, i + left = N → i ≤ k → (∀ j, i ≤ j → j < k → get j = .transportError) →
      fetchLoop (N : Int) get unmarshal codeOf left i =
        (retrySteps i (k - i) ++ [Event.request (k + 1)],
          handleResponse unmarshal codeOf statusCode body) := by
  intro left
  induction left with
  | zero => intro i hi hik _; omega
  | succ left ih =>
    intro i hi hik hfault
    rcases Nat.eq_or_lt_of_le hik with heq | hlt
    · subst heq
      simp [fetchLoop, hget, retrySteps]
    · have hgi : get i = .transportError := hfault i (le_refl i) hlt
      have hne : ¬ ((i : Int) = (N : Int) - 1) := by omega
      have hrec := ih (i + 1) (by omega) (by omega)
        (fun j hj hjk => hfault j (by omega) hjk)
      have hsub : k - i = (k - (i + 1)) + 1 := by omega
      simp only [fetchLoop, hgi, hne, if_false, hrec]
      rw [hsub, retrySteps_succ]
      simp

theorem fetchLoop_allFaults {α : Type} (N : Nat) (get : Nat → GetResult)
    (unmarshal : String → Option α) (codeOf : α → String)
    (hfault : ∀ j, j < N → get j = .transportError) :
    ∀ left i, i + left + 1 = N →
      fetchLoop (N : Int) get unmarshal codeOf (left + 1) i =
        (retrySteps i left ++ [Event.request N], .error .requestFailed) := by
  intro left
  induction left with
  | zero =>
    intro i hi
    have hgi : get i = .transportError := hfault i (by omega)
    have he : (i : Int) = (N : Int) - 1 := by omega
    have hN : i + 1 = N := by omega
    rw [fetchLoop]
    simp only [hgi, if_pos he, hN]
    simp [retrySteps]
  | succ left ih =>
    intro i hi
    have hgi : get i = .transportError := hfault i (by omega)
    have hne : ¬ ((i : Int) = (N : Int) - 1) := by omega
    have hrec := ih (i + 1) (by omega)
    rw [fetchLoop]
    simp only [hgi, hne, if_false, hrec]
    rw [retrySteps_succ]
    simp

theorem handleResponse_error {α : Type} (unmarshal : String → Option α) (codeOf : α → String)
    (statusCode : Nat) (body : Option String)
    (h : statusCode ≠ 200 ∨ body = none ∨
      ∃ b, body = some b ∧ (unmarshal b = none ∨ ∃ v, unmarshal b = some v ∧ codeOf v ≠ "200")) :
    ∃ e, handleResponse unmarshal codeOf statusCode body = .error e := by
  unfold handleResponse
  by_cases hs : statusCode ≠ 200
  · exact ⟨_, if_pos hs⟩
  · rw [if_neg hs]
    rcases h with h | h | ⟨b, hb, h⟩
    · exact absurd h hs
    · subst h; exact ⟨_, rfl⟩
    · subst hb
      rcases h with h | ⟨v, hv, hc⟩
      · simp [h]
      · simp [hv, hc]

/-! ## Lemmas on the map of counts and its maximum -/

theorem lookupCount_mapIncr (m : List (String × Nat)) (d k : String) :
    lookupCount (mapIncr m d) k = lookupCount m k + (if k = d then 1 else 0) := by
  induction m with
  | nil =>
    by_cases h : k = d
    · subst h; simp [mapIncr, lookupCount]
    · have h2 : ¬ d = k := fun e => h e.symm
      simp [mapIncr, lookupCount, h, h2]
  | cons e rest ih =>
    obtain ⟨k1, c1⟩ := e
    simp only [lookupCount] at ih
    by_cases h1 : k1 = d
    · subst h1
      by_cases h2 : k1 = k
      · subst h2; simp [mapIncr, lookupCount]
      · have h3 : ¬ k = k1 := fun e => h2 e.symm
        simp [mapIncr, lookupCount, h2, h3]
    · by_cases h2 : k1 = k
      · subst h2
        simp [mapIncr, lookupCount, h1]
      · simp only [mapIncr, h1, if_false, lookupCount, List.find?_cons, h2, decide_False]
        exact ih

theorem keys_mapIncr (m : List (String × Nat)) (d : String) :
    (mapIncr m d).map Prod.fst =
      if d ∈ m.map Prod.fst then m.map Prod.fst else m.map Prod.fst ++ [d] := by
  induction m with
  | nil => simp [mapIncr]
  | cons e rest ih =>
    obtain ⟨k1, c1⟩ := e
    by_cases h1 : k1 = d
    · subst h1; simp [mapIncr]
    · have h2 : ¬ d = k1 := fun e => h1 e.symm
      simp only [mapIncr, h1, if_false, List.map_cons, ih, List.mem_cons, h2, false_or]
      split_ifs <;> simp

theorem nodup_keys_mapIncr (m : List (String × Nat)) (d : String)
    (h : (m.map Prod.fst).Nodup) : ((mapIncr m d).map Prod.fst).Nodup := by
  rw [keys_mapIncr]
  split_ifs with hd
  · exact h
  · exact List.Nodup.append h (List.nodup_singleton d) (by simpa using hd)

theorem lookupCount_of_mem (m : List (String × Nat)) (h : (m.map Prod.fst).Nodup)
    (k : String) (c : Nat) (hmem : (k, c) ∈ m) : lookupCount m k = c := by
  induction m with
  | nil => simp at hmem
  | cons e rest ih =>
    obtain ⟨k1, c1⟩ := e
    simp only [List.map_cons, List.nodup_cons] at h
    rcases List.mem_cons.1 hmem with heq | hrest
    · cases heq; simp [lookupCount]
    · have hk : k1 ≠ k := by
        intro e; subst e
        exact h.1 (List.mem_map_of_mem Prod.fst hrest)
      have := ih h.2 hrest
      simp only [lookupCount] at this ⊢
      simp only [List.find?_cons, hk, decide_False]
      exact this

theorem mem_of_lookupCount_pos (m : List (String × Nat)) (k : String)
    (h : 0 < lookupCount m k) : (k, lookupCount m k) ∈ m := by
  unfold lookupCount at h ⊢
  cases hf : m.find? (fun e => decide (e.1 = k)) with
  | none => simp [hf] at h
  | some e =>
    have hk : e.1 = k := by simpa using List.find?_some hf
    have hm : e ∈ m := List.mem_of_find?_eq_some hf
    obtain ⟨k1, c1⟩ := e
    simp only at hk
    subst hk
    simpa using hm

theorem tallyLoop_fst (ps : List Period) (m : List (String × Nat)) (total : Float64) :
    (tallyLoop ps m total).1 = tallyMap m (ps.map fun p => p.weather) := by
  induction ps generalizing m total with
  | nil => rfl
  | cons p rest ih =>
    unfold tallyLoop
    cases parseFloat p.precip with
    | none => simp [ih, tallyMap]
    | some v => simp [ih, tallyMap]

theorem lookupCount_tallyMap (m : List (String × Nat)) (ds : List String) (k : String) :
    lookupCount (tallyMap m ds) k = lookupCount m k + ds.count k := by
  induction ds generalizing m with
  | nil => simp [tallyMap]
  | cons d rest ih =>
    have h := ih (mapIncr m d)
    simp only [tallyMap, List.foldl_cons] at h ⊢
    rw [h, lookupCount_mapIncr, List.count_cons]
    by_cases hk : k = d
    · subst hk; simp; omega
    · have hk2 : ¬ d = k := fun e => hk e.symm
      simp [hk, hk2]

theorem nodup_keys_tallyMap (m : List (String × Nat)) (ds : List String)
    (h : (m.map Prod.fst).Nodup) : ((tallyMap m ds).map Prod.fst).Nodup := by
  induction ds generalizing m with
  | nil => exact h
  | cons d rest ih => exact ih (mapIncr m d) (nodup_keys_mapIncr m d h)

theorem maxLoop_spec (l : List (String × Nat)) (w0 : String) (c0 : Nat) :
    (maxLoop l w0 c0 = w0 ∧ ∀ e ∈ l, e.2 ≤ c0) ∨
      ∃ pre c post, l = pre ++ (maxLoop l w0 c0, c) :: post ∧ c0 < c ∧
        (∀ e ∈ pre, e.2 < c) ∧ (∀ e ∈ post, e.2 ≤ c) := by
  induction l generalizing w0 c0 with
  | nil => left; simp [maxLoop]
  | cons e rest ih =>
    obtain ⟨w1, c1⟩ := e
    by_cases hgt : c1 > c0
    · have hstep : maxLoop ((w1, c1) :: rest) w0 c0 = maxLoop rest w1 c1 := by
        simp [maxLoop, hgt]
      rw [hstep]
      right
      rcases ih w1 c1 with ⟨hw, hall⟩ | ⟨pre, c, post, hl, hc, hpre, hpost⟩
      · exact ⟨[], c1, rest, by rw [hw]; rfl, hgt, by simp, hall⟩
      · refine ⟨(w1, c1) :: pre, c, post, ?_, by omega, ?_, hpost⟩
        · rw [List.cons_append, ← hl]
        · intro e he
          rcases List.mem_cons.1 he with h | h
          · subst h; exact hc
          · exact hpre e h
    · have hstep : maxLoop ((w1, c1) :: rest) w0 c0 = maxLoop rest w0 c0 := by
        simp [maxLoop, hgt]
      rw [hstep]
      rcases ih w0 c0 with ⟨hw, hall⟩ | ⟨pre, c, post, hl, hc, hpre, hpost⟩
      · left
        refine ⟨hw, ?_⟩
        intro e he
        rcases List.mem_cons.1 he with h | h
        · subst h; simp only; omega
        · exact hall e h
      · right
        refine ⟨(w1, c1) :: pre, c, post, ?_, hc, ?_, hpost⟩
        · rw [List.cons_append, ← hl]
        · intro e he
          rcases List.mem_cons.1 he with h | h
          · subst h; simp only; omega
          · exact hpre e h

/-! ## Lemmas on the rounding to binary64 -/

theorem findDoubling_spec (fuel k n : Nat) (h : n ≤ fuel + k) :
    n < 2 ^ 2 ^ findDoubling fuel k n := by
  induction fuel generalizing k with
  | zero =>
    simp only [findDoubling]
    have h1 : n < 2 ^ n := Nat.lt_two_pow n
    have h2 : k < 2 ^ k := Nat.lt_two_pow k
    calc n < 2 ^ n := h1
      _ ≤ 2 ^ 2 ^ k := Nat.pow_le_pow_right (by decide) (by omega)
  | succ fuel ih =>
    simp only [findDoubling]
    split_ifs with hlt
    · exact hlt
    · exact ih (k + 1) (by omega)

theorem log2Search_spec (k : Nat) :
    ∀ n, 1 ≤ n → n < 2 ^ 2 ^ (k + 1) →
      2 ^ log2Search k n ≤ n ∧ n < 2 ^ (log2Search k n + 1) := by
  induction k with
  | zero =>
    intro n h1 h2
    have h4 : n < 4 := by simpa using h2
    simp only [log2Search]
    split_ifs with h
    · constructor
      · simpa using h
      · simpa using h4
    · constructor
      · simpa using h1
      · simp; omega
  | succ k ih =>
    intro n h1 h2
    simp only [log2Search]
    split_ifs with hge
    · have hBpos : 0 < 2 ^ 2 ^ (k + 1) := Nat.pos_pow_of_pos _ (by decide)
      have hq1 : 1 ≤ n / 2 ^ 2 ^ (k + 1) := (Nat.one_le_div_iff hBpos).2 hge
      have hsq : (2 : Nat) ^ 2 ^ (k + 1 + 1) = 2 ^ 2 ^ (k + 1) * 2 ^ 2 ^ (k + 1) := by
        rw [← pow_add]; congr 1; rw [pow_succ]; omega
      have hq2 : n / 2 ^ 2 ^ (k + 1) < 2 ^ 2 ^ (k + 1) := by
        rw [Nat.div_lt_iff_lt_mul hBpos, ← hsq]; exact h2
      obtain ⟨l1, l2⟩ := ih (n / 2 ^ 2 ^ (k + 1)) hq1 hq2
      constructor
      · rw [pow_add]
        calc 2 ^ 2 ^ (k + 1) * 2 ^ log2Search k (n / 2 ^ 2 ^ (k + 1))
            ≤ 2 ^ 2 ^ (k + 1) * (n / 2 ^ 2 ^ (k + 1)) := Nat.mul_le_mul_left _ l1
          _ ≤ n := Nat.mul_div_le n _
      · rw [add_assoc, pow_add]
        calc n < 2 ^ 2 ^ (k + 1) * (n / 2 ^ 2 ^ (k + 1) + 1) := Nat.lt_mul_div_succ n hBpos
          _ ≤ 2 ^ 2 ^ (k + 1) * 2 ^ (log2Search k (n / 2 ^ 2 ^ (k + 1)) + 1) :=
              Nat.mul_le_mul_left _ l2
    · exact ih n h1 (not_le.1 hge)

theorem floorLog2_spec (n : Nat) (h : 1 ≤ n) :
    2 ^ floorLog2 n ≤ n ∧ n < 2 ^ (floorLog2 n + 1) := by
  unfold floorLog2
  apply log2Search_spec _ n h
  have h1 := findDoubling_spec n 0 n (by omega)
  calc n < 2 ^ 2 ^ findDoubling n 0 n := h1
    _ ≤ 2 ^ 2 ^ (findDoubling n 0 n + 1) :=
        Nat.pow_le_pow_right (by decide) (Nat.pow_le_pow_right (by decide) (by omega))

theorem floorLog2_zero : floorLog2 0 = 0 := by decide

theorem roundNearestEven_bounds (a b : Nat) (hb : 0 < b) :
    2 * b * roundNearestEven a b ≤ 2 * a + b ∧ 2 * a ≤ 2 * b * roundNearestEven a b + b := by
  have hdiv : b * (a / b) + a % b = a := Nat.div_add_mod a b
  have hmod : a % b < b := Nat.mod_lt a hb
  unfold roundNearestEven
  simp only []
  generalize a / b = q at hdiv ⊢
  generalize a % b = r at hdiv hmod ⊢
  have e1 : 2 * b * q = 2 * (b * q) := by ring
  have e2 : 2 * b * (q + 1) = 2 * (b * q) + 2 * b := by ring
  generalize b * q = X at hdiv e1 e2
  split_ifs <;> constructor <;> omega

/-- With the scaled value `s = n * 2 ^ 1074` and the step exponent `q`, the rounded
mantissa is at most `2 ^ 53`. -/
theorem roundPos_mantissa_le (s d : Nat) (hd : 0 < d) :
    roundNearestEven s (d * 2 ^ (floorLog2 (s / d) - 52)) ≤ 2 ^ 53 := by
  have hDpos : 0 < d * 2 ^ (floorLog2 (s / d) - 52) :=
    Nat.mul_pos hd (Nat.pos_pow_of_pos _ (by decide))
  have hup : s < d * 2 ^ (floorLog2 (s / d) + 1) := by
    by_cases ht : 1 ≤ s / d
    · have h2 := (floorLog2_spec (s / d) ht).2
      calc s < d * (s / d + 1) := Nat.lt_mul_div_succ s hd
        _ ≤ d * 2 ^ (floorLog2 (s / d) + 1) := Nat.mul_le_mul_left _ h2
    · have ht0 : s / d = 0 := Nat.lt_one_iff.1 (not_le.1 ht)
      have hs : s < d := (Nat.div_eq_zero_iff hd).1 ht0
      rw [ht0, floorLog2_zero]
      omega
  have hpow : 2 ^ (floorLog2 (s / d) + 1) ≤ 2 ^ (floorLog2 (s / d) - 52) * 2 ^ 53 := by
    rw [← pow_add]
    exact Nat.pow_le_pow_right (by decide) (by omega)
  have hs : s < d * 2 ^ (floorLog2 (s / d) - 52) * 2 ^ 53 := by
    calc s < d * 2 ^ (floorLog2 (s / d) + 1) := hup
      _ ≤ d * (2 ^ (floorLog2 (s / d) - 52) * 2 ^ 53) := Nat.mul_le_mul_left _ hpow
      _ = d * 2 ^ (floorLog2 (s / d) - 52) * 2 ^ 53 := by ring
  have hb := (roundNearestEven_bounds s _ hDpos).1
  generalize d * 2 ^ (floorLog2 (s / d) - 52) = D at hDpos hs hb
  generalize roundNearestEven s D = m at hb
  by_contra hcon
  have hm : 2 ^ 53 + 1 ≤ m := by omega
  have : 2 * D * (2 ^ 53 + 1) ≤ 2 * D * m := Nat.mul_le_mul_left _ hm
  nlinarith

theorem limit64_eq : limit64 = topStep * 2 ^ 53 := by
  unfold limit64 topStep; rw [← pow_add]

theorem topStep_pos : 0 < topStep := Nat.pos_pow_of_pos _ (by decide)

theorem scale64_pos : 0 < scale64 := Nat.pos_pow_of_pos _ (by decide)

theorem scale64_lt_topStep : scale64 < topStep :=
  Nat.pow_lt_pow_right (by decide) (by decide)

theorem scale64_ge : 10 * 2 ^ 52 ≤ scale64 := by
  have h : (2 : Nat) ^ 56 ≤ 2 ^ 1074 := Nat.pow_le_pow_right (by decide) (by decide)
  have e : (2 : Nat) ^ 56 = 16 * 2 ^ 52 := by rw [show (16 : Nat) = 2 ^ 4 by norm_num, ← pow_add]
  unfold scale64
  omega

theorem mul_pow_le_of_le (m q : Nat) (hm : m ≤ 2 ^ 53) (hq : q ≤ 2044) :
    m * 2 ^ q * 2 ≤ 2 ^ 53 * topStep := by
  have h1 : 2 ^ q * 2 ≤ topStep := by
    unfold topStep
    rw [← pow_succ]
    exact Nat.pow_le_pow_right (by decide) (by omega)
  calc m * 2 ^ q * 2 = m * (2 ^ q * 2) := by ring
    _ ≤ 2 ^ 53 * topStep := Nat.mul_le_mul hm h1

/-- A finite result of `roundPos` has denominator `scale64` and is at most the
largest `float64`, `2 ^ 1024 - 2 ^ 971`. -/
theorem roundPos_some_bound (n d : Nat) (hd : 0 < d) (r : Nat × Nat)
    (h : roundPos n d = some r) : r.2 = scale64 ∧ r.1 + topStep ≤ limit64 := by
  unfold roundPos at h
  simp only [] at h
  split_ifs at h with hov
  simp only [Option.some.injEq] at h
  subst h
  refine ⟨rfl, ?_⟩
  have hm := roundPos_mantissa_le (n * scale64) d hd
  generalize roundNearestEven (n * scale64) (d * 2 ^ (floorLog2 (n * scale64 / d) - 52)) = m
    at hov hm ⊢
  generalize floorLog2 (n * scale64 / d) - 52 = q at hov ⊢
  simp only []
  rw [limit64_eq] at hov ⊢
  have hT := topStep_pos
  by_cases hq : q ≤ 2044
  · have h2 := mul_pow_le_of_le m q hm hq
    generalize m * 2 ^ q = V at h2 ⊢
    generalize topStep = T at h2 hT ⊢
    norm_num at h2 ⊢
    omega
  · have hq' : 2045 + (q - 2045) = q := by omega
    have hpow : 2 ^ q = topStep * 2 ^ (q - 2045) := by
      have h3 := pow_add (2 : Nat) 2045 (q - 2045)
      rw [hq'] at h3
      exact h3
    rw [hpow] at hov ⊢
    have hlt : m * 2 ^ (q - 2045) < 2 ^ 53 := by
      by_contra hc
      apply hov
      calc topStep * 2 ^ 53 ≤ topStep * (m * 2 ^ (q - 2045)) :=
            Nat.mul_le_mul_left _ (not_lt.1 hc)
        _ = m * (topStep * 2 ^ (q - 2045)) := by ring
    calc m * (topStep * 2 ^ (q - 2045)) + topStep
        = topStep * (m * 2 ^ (q - 2045) + 1) := by ring
      _ ≤ topStep * 2 ^ 53 := Nat.mul_le_mul_left _ hlt

/-- A value below `2 ^ 1024 - 2 ^ 970` does not overflow. -/
theorem roundPos_isSome (n d : Nat) (hd : 0 < d)
    (hlt : 2 * (n * scale64) + d * topStep < 2 * (d * limit64)) :
    ∃ r, roundPos n d = some r := by
  unfold roundPos
  simp only []
  have hm := roundPos_mantissa_le (n * scale64) d hd
  have hb := (roundNearestEven_bounds (n * scale64)
    (d * 2 ^ (floorLog2 (n * scale64 / d) - 52))
    (Nat.mul_pos hd (Nat.pos_pow_of_pos _ (by decide)))).1
  have hq : floorLog2 (n * scale64 / d) - 52 ≤ 2045 := by
    have ht : n * scale64 / d < limit64 := by
      rw [Nat.div_lt_iff_lt_mul hd]
      have : limit64 * d = d * limit64 := Nat.mul_comm _ _
      omega
    by_cases h1 : 1 ≤ n * scale64 / d
    · have h2 := (floorLog2_spec _ h1).1
      have h3 : 2 ^ floorLog2 (n * scale64 / d) < 2 ^ 2098 := lt_of_le_of_lt h2 ht
      have h4 := (Nat.pow_lt_pow_iff_right (by decide)).1 h3
      omega
    · have ht0 : n * scale64 / d = 0 := Nat.lt_one_iff.1 (not_le.1 h1)
      rw [ht0, floorLog2_zero]
      omega
  generalize roundNearestEven (n * scale64) (d * 2 ^ (floorLog2 (n * scale64 / d) - 52)) = m
    at hm hb ⊢
  generalize floorLog2 (n * scale64 / d) - 52 = q at hq hb ⊢
  have hT := topStep_pos
  have hnot : ¬ limit64 ≤ m * 2 ^ q := by
    rw [limit64_eq] at hlt ⊢
    by_cases hq2 : q ≤ 2044
    · have h2 := mul_pow_le_of_le m q hm hq2
      generalize m * 2 ^ q = V at h2 ⊢
      generalize topStep = T at h2 hT ⊢
      norm_num at h2 ⊢
      omega
    · have hq3 : q = 2045 := by omega
      subst hq3
      have hpow : (2 : Nat) ^ 2045 = topStep := rfl
      rw [hpow] at hb ⊢
      intro hge
      have h5 : 2 * (d * topStep) * 2 ^ 53 ≤ 2 * (d * topStep) * m := by
        apply Nat.mul_le_mul_left
        exact Nat.le_of_mul_le_mul_right (by rw [Nat.mul_comm (2 ^ 53)]; exact hge) hT
      have e1 : 2 * (d * (topStep * 2 ^ 53)) = 2 * (d * topStep) * 2 ^ 53 := by ring
      rw [e1] at hlt
      generalize 2 * (d * topStep) * 2 ^ 53 = X at hlt h5
      generalize 2 * (d * topStep) * m = Y at hb h5
      omega
  rw [if_neg hnot]
  exact ⟨_, rfl⟩

/-- Rounding a number of tenths `k / 10` to `float64` does not move it across a
threshold `T / 10` it differs from. -/
theorem roundPos_tenths_lt (k T : Nat) (hk : 1 ≤ k) (hT : T ≤ 2 ^ 52) (hne : k ≠ T)
    (r : Nat × Nat) (h : roundPos k 10 = some r) : r.1 * 10 < T * r.2 ↔ k < T := by
  unfold roundPos at h
  simp only [] at h
  split_ifs at h with hov
  simp only [Option.some.injEq] at h
  subst h
  simp only []
  have hE := scale64_ge
  have hEpos := scale64_pos
  have hs : scale64 ≤ k * scale64 := Nat.le_mul_of_pos_left _ hk
  have ht : 2 ^ 52 ≤ k * scale64 / 10 := by
    rw [Nat.le_div_iff_mul_le (by decide)]; omega
  have ht1 : 1 ≤ k * scale64 / 10 := le_trans (Nat.one_le_two_pow) ht
  obtain ⟨l1, l2⟩ := floorLog2_spec _ ht1
  have hL : 52 ≤ floorLog2 (k * scale64 / 10) := by
    have h3 : 2 ^ 52 < 2 ^ (floorLog2 (k * scale64 / 10) + 1) := lt_of_le_of_lt ht l2
    have h4 := (Nat.pow_lt_pow_iff_right (by decide)).1 h3
    omega
  have hb := roundNearestEven_bounds (k * scale64)
    (10 * 2 ^ (floorLog2 (k * scale64 / 10) - 52))
    (Nat.mul_pos (by decide) (Nat.pos_pow_of_pos _ (by decide)))
  have hsplit : floorLog2 (k * scale64 / 10) - 52 + 52 = floorLog2 (k * scale64 / 10) := by
    omega
  have hpow : 2 ^ (floorLog2 (k * scale64 / 10) - 52) * 2 ^ 52 =
      2 ^ floorLog2 (k * scale64 / 10) := by
    have h3 := pow_add (2 : Nat) (floorLog2 (k * scale64 / 10) - 52) 52
    rw [hsplit] at h3
    exact h3.symm
  have f3 : 2 ^ (floorLog2 (k * scale64 / 10) - 52) * 2 ^ 52 * 10 ≤ k * scale64 := by
    rw [hpow]
    calc 2 ^ floorLog2 (k * scale64 / 10) * 10 ≤ k * scale64 / 10 * 10 :=
          Nat.mul_le_mul_right _ l1
      _ ≤ k * scale64 := Nat.div_mul_le_self _ _
  have hZ : T * scale64 ≤ 2 ^ 52 * scale64 := Nat.mul_le_mul_right _ hT
  have hcase : (k < T → k * scale64 + scale64 ≤ T * scale64) ∧
      (T < k → T * scale64 + scale64 ≤ k * scale64) := by
    constructor
    · intro hlt
      calc k * scale64 + scale64 = (k + 1) * scale64 := by ring
        _ ≤ T * scale64 := Nat.mul_le_mul_right _ hlt
    · intro hlt
      calc T * scale64 + scale64 = (T + 1) * scale64 := by ring
        _ ≤ k * scale64 := Nat.mul_le_mul_right _ hlt
  generalize roundNearestEven (k * scale64) (10 * 2 ^ (floorLog2 (k * scale64 / 10) - 52)) = m
    at hb ⊢
  generalize 2 ^ (floorLog2 (k * scale64 / 10) - 52) = Q at hb f3 ⊢
  have e1 : 2 * (10 * Q) * m = 20 * (m * Q) := by ring
  rw [e1] at hb
  generalize m * Q = V at hb ⊢
  generalize k * scale64 = s at hb f3 hcase hs
  generalize T * scale64 = Z at hZ hcase ⊢
  generalize scale64 = E at hZ hcase hEpos hs hE
  norm_num at hZ f3
  constructor
  · intro hlt
    by_contra hge
    have hgt : T < k := by omega
    have := hcase.2 hgt
    omega
  · intro hlt
    have := hcase.1 hlt
    omega

theorem roundPos_25 :
    (roundPos 25 10).map (fun r => decide (r.1 * 10 < 25 * r.2)) = some false := by decide

theorem roundPos_100 :
    (roundPos 100 10).map (fun r => decide (r.1 * 10 < 100 * r.2)) = some false := by decide

theorem roundPos_250 :
    (roundPos 250 10).map (fun r => decide (r.1 * 10 < 250 * r.2)) = some false := by decide

theorem roundPos_tenths_lt_iff (k : Nat) (hk : 1 ≤ k) (r : Nat × Nat)
    (h : roundPos k 10 = some r) :
    (r.1 * 10 < 25 * r.2 ↔ k < 25) ∧ (r.1 * 10 < 100 * r.2 ↔ k < 100) ∧
      (r.1 * 10 < 250 * r.2 ↔ k < 250) := by
  refine ⟨?_, ?_, ?_⟩
  · by_cases hne : k = 25
    · subst hne
      have h2 := roundPos_25
      rw [h] at h2
      simp only [Option.map_some', Option.some.injEq, decide_eq_false_iff_not] at h2
      constructor
      · intro h3; exact absurd h3 h2
      · intro h3; omega
    · exact roundPos_tenths_lt k 25 hk (by norm_num) hne r h
  · by_cases hne : k = 100
    · subst hne
      have h2 := roundPos_100
      rw [h] at h2
      simp only [Option.map_some', Option.some.injEq, decide_eq_false_iff_not] at h2
      constructor
      · intro h3; exact absurd h3 h2
      · intro h3; omega
    · exact roundPos_tenths_lt k 100 hk (by norm_num) hne r h
  · by_cases hne : k = 250
    · subst hne
      have h2 := roundPos_250
      rw [h] at h2
      simp only [Option.map_some', Option.some.injEq, decide_eq_false_iff_not] at h2
      constructor
      · intro h3; exact absurd h3 h2
      · intro h3; omega
    · exact roundPos_tenths_lt k 250 hk (by norm_num) hne r h

/-! ## Lemmas on the printing and parsing of decimals -/

theorem digitChar_spec (n : Nat) (h : n < 10) :
    isDigit (Nat.digitChar n) = true ∧ digitVal (Nat.digitChar n) = n := by
  interval_cases n <;> decide

theorem digitsValue_append_singleton (pre : List Char) (d : Char) :
    digitsValue (pre ++ [d]) = digitsValue pre * 10 + digitVal d := by
  simp [digitsValue, List.foldl_append]

theorem toDigitsCore_spec (fuel : Nat) :
    ∀ n ds, n < fuel → ∃ pre, Nat.toDigitsCore 10 fuel n ds = pre ++ ds ∧ pre ≠ [] ∧
      (∀ c ∈ pre, isDigit c = true) ∧ digitsValue pre = n := by
  induction fuel with
  | zero => intro n ds h; omega
  | succ fuel ih =>
    intro n ds hn
    have hd := digitChar_spec (n % 10) (Nat.mod_lt n (by decide))
    by_cases h0 : n / 10 = 0
    · refine ⟨[Nat.digitChar (n % 10)], ?_, by simp, ?_, ?_⟩
      · simp [Nat.toDigitsCore, h0]
      · intro c hc
        rw [List.mem_singleton.1 hc]; exact hd.1
      · have hmod : n % 10 = n := Nat.mod_eq_of_lt (by omega)
        have h2 := hd.2
        rw [hmod] at h2
        simp [digitsValue, hmod, h2]
    · obtain ⟨pre, hpre, _, hdig, hval⟩ := ih (n / 10) (Nat.digitChar (n % 10) :: ds) (by omega)
      refine ⟨pre ++ [Nat.digitChar (n % 10)], ?_, by simp, ?_, ?_⟩
      · simp [Nat.toDigitsCore, h0, hpre]
      · intro c hc
        rcases List.mem_append.1 hc with h | h
        · exact hdig c h
        · rw [List.mem_singleton.1 h]; exact hd.1
      · rw [digitsValue_append_singleton, hval, hd.2]
        omega

theorem repr_spec (n : Nat) :
    (Nat.repr n).data ≠ [] ∧ (∀ c ∈ (Nat.repr n).data, isDigit c = true) ∧
      digitsValue (Nat.repr n).data = n := by
  obtain ⟨pre, hpre, hne, hdig, hval⟩ := toDigitsCore_spec (n + 1) n [] (Nat.lt_succ_self n)
  have hdata : (Nat.repr n).data = pre := by
    simp [Nat.repr, Nat.toDigits, hpre, List.asString]
  rw [hdata]
  exact ⟨hne, hdig, hval⟩

theorem repr_digit (b : Nat) (hb : b < 10) : (Nat.repr b).data = [Nat.digitChar b] := by
  interval_cases b <;> rfl

theorem span_of_all (P : Char → Bool) (l rest : List Char) (hl : ∀ c ∈ l, P c = true)
    (hrest : ∀ c r, rest = c :: r → P c = false) :
    (l ++ rest).span P = (l, rest) := by
  rw [List.span_eq_take_drop, List.takeWhile_append_of_pos hl, List.dropWhile_append_of_pos hl]
  cases rest with
  | nil => simp
  | cons c r =>
    have hc : ¬ P c = true := by simp [hrest c r rfl]
    rw [List.takeWhile_cons_of_neg hc, List.dropWhile_cons_of_neg hc]
    simp

theorem ne_of_isDigit (c d : Char) (hc : isDigit c = true) (hd : isDigit d = false) : c ≠ d := by
  intro h
  rw [h, hd] at hc
  exact absurd hc (by decide)

theorem equalsIgnoreCase_digit (c p : Char) (rest ps : List Char) (hc : isDigit c = true)
    (hp : isDigit p = false) : equalsIgnoreCase (c :: rest) (p :: ps) = false := by
  have h1 : (c == p) = false := by simpa using ne_of_isDigit c p hc hp
  have h2 : (decide ('A' ≤ c) && decide (c ≤ 'Z')) = false := by
    simp only [isDigit, Bool.and_eq_true, decide_eq_true_eq] at hc
    simp only [Bool.and_eq_false_imp, decide_eq_true_eq, decide_eq_false_iff_not, not_le]
    intro h
    have h9 : c ≤ '9' := hc.2
    have h' : 65 ≤ c.toNat := h
    have h9' : c.toNat ≤ 57 := h9
    omega
  simp [equalsIgnoreCase, h1, h2]

theorem special_digit (c : Char) (rest : List Char) (hc : isDigit c = true) :
    special (c :: rest) = none := by
  have hplus : c ≠ '+' := ne_of_isDigit c '+' hc (by decide)
  have hminus : c ≠ '-' := ne_of_isDigit c '-' hc (by decide)
  have e1 : equalsIgnoreCase (c :: rest) "inf".data = false :=
    equalsIgnoreCase_digit c 'i' rest _ hc (by decide)
  have e2 : equalsIgnoreCase (c :: rest) "infinity".data = false :=
    equalsIgnoreCase_digit c 'i' rest _ hc (by decide)
  have e3 : equalsIgnoreCase (c :: rest) "nan".data = false :=
    equalsIgnoreCase_digit c 'n' rest _ hc (by decide)
  unfold special
  split
  · rename_i r heq
    simp only [List.cons.injEq] at heq
    exact absurd heq.1 hplus
  · rename_i r heq
    simp only [List.cons.injEq] at heq
    exact absurd heq.1 hminus
  · simp [e1, e2, e3]

theorem underscoreLoop_clean (l : List Char) :
    ∀ saw, saw ≠ '_' → (∀ c ∈ l, c ≠ '_') → underscoreLoop false l saw = true := by
  induction l with
  | nil => intro saw hs _; simp [underscoreLoop, hs]
  | cons c rest ih =>
    intro saw hs hl
    have hc : c ≠ '_' := hl c (List.mem_cons_self c rest)
    have hrest : ∀ d ∈ rest, d ≠ '_' := fun d hd => hl d (List.mem_cons_of_mem c hd)
    unfold underscoreLoop
    by_cases hd : isDigit c = true
    · simp only [hd, Bool.true_or, if_true]
      exact ih '0' (by decide) hrest
    · have hs2 : (saw == '_') = false := by simpa using hs
      have hc2 : (c == '_') = false := by simpa using hc
      simp only [hd, Bool.false_and, Bool.or_false, hc2, hs2, Bool.false_eq_true, if_false]
      exact ih '!' (by decide) hrest

theorem underscoreOK_tenths (c b : Char) (da : List Char) (hc : isDigit c = true)
    (hda : ∀ d ∈ da, isDigit d = true) (hb : isDigit b = true) :
    underscoreOK (c :: (da ++ ['.', b])) = true := by
  have hclean : ∀ d ∈ c :: (da ++ ['.', b]), d ≠ '_' := by
    intro d hd
    simp only [List.mem_cons, List.mem_append, List.mem_singleton, List.not_mem_nil,
      or_false] at hd
    rcases hd with h | h | h | h
    · rw [h]; exact ne_of_isDigit c '_' hc (by decide)
    · exact ne_of_isDigit d '_' (hda d h) (by decide)
    · rw [h]; decide
    · rw [h]; exact ne_of_isDigit b '_' hb (by decide)
  have hbody : (match c :: (da ++ ['.', b]) with
      | '-' :: r => r
      | '+' :: r => r
      | _ => c :: (da ++ ['.', b])) = c :: (da ++ ['.', b]) := by
    split
    · rename_i r heq
      simp only [List.cons.injEq] at heq
      exact absurd heq.1 (ne_of_isDigit c '-' hc (by decide))
    · rename_i r heq
      simp only [List.cons.injEq] at heq
      exact absurd heq.1 (ne_of_isDigit c '+' hc (by decide))
    · rfl
  unfold underscoreOK
  simp only [hbody]
  split
  · rename_i x r heq
    have hx : x ∈ da ++ ['.', b] := by
      simp only [List.cons.injEq] at heq
      rw [heq.2]; exact List.mem_cons_self x r
    have hxd : isDigit x = true ∨ x = '.' := by
      simp only [List.mem_append, List.mem_cons, List.mem_singleton, List.not_mem_nil,
        or_false] at hx
      rcases hx with h | h | h
      · exact Or.inl (hda x h)
      · exact Or.inr h
      · rw [h]; exact Or.inl hb
    have hnot : (x == 'b' || x == 'B' || x == 'o' || x == 'O' || x == 'x' || x == 'X') = false := by
      rcases hxd with h | h
      · have n1 := ne_of_isDigit x 'b' h (by decide)
        have n2 := ne_of_isDigit x 'B' h (by decide)
        have n3 := ne_of_isDigit x 'o' h (by decide)
        have n4 := ne_of_isDigit x 'O' h (by decide)
        have n5 := ne_of_isDigit x 'x' h (by decide)
        have n6 := ne_of_isDigit x 'X' h (by decide)
        simp [n1, n2, n3, n4, n5, n6]
      · rw [h]; decide
    simp only [hnot, Bool.false_eq_true, if_false]
    exact underscoreLoop_clean _ '^' (by decide) hclean
  · exact underscoreLoop_clean _ '^' (by decide) hclean

theorem readFloat_tenths (c b : Char) (da : List Char) (hc : isDigit c = true)
    (hda : ∀ d ∈ da, isDigit d = true) (hb : isDigit b = true) :
    readFloat (c :: (da ++ ['.', b])) = some (false, digitsValue (c :: (da ++ [b])), 10) := by
  have hsign : (match c :: (da ++ ['.', b]) with
      | '+' :: r => (false, r)
      | '-' :: r => (true, r)
      | _ => (false, c :: (da ++ ['.', b]))) = (false, c :: (da ++ ['.', b])) := by
    split
    · rename_i r heq
      simp only [List.cons.injEq] at heq
      exact absurd heq.1 (ne_of_isDigit c '+' hc (by decide))
    · rename_i r heq
      simp only [List.cons.injEq] at heq
      exact absurd heq.1 (ne_of_isDigit c '-' hc (by decide))
    · rfl
  have hhex : (match c :: (da ++ ['.', b]) with
      | '0' :: x :: _ :: _ => x == 'x' || x == 'X'
      | _ => false) = false := by
    split
    · rename_i x y z heq
      have hx : x ∈ da ++ ['.', b] := by
        simp only [List.cons.injEq] at heq
        rw [heq.2]; exact List.mem_cons_self x _
      simp only [List.mem_append, List.mem_cons, List.mem_singleton, List.not_mem_nil,
        or_false] at hx
      rcases hx with h | h | h
      · have n5 := ne_of_isDigit x 'x' (hda x h) (by decide)
        have n6 := ne_of_isDigit x 'X' (hda x h) (by decide)
        simp [n5, n6]
      · rw [h]; decide
      · have n5 := ne_of_isDigit x 'x' (h ▸ hb) (by decide)
        have n6 := ne_of_isDigit x 'X' (h ▸ hb) (by decide)
        simp [n5, n6]
    · rfl
  have hall : ∀ d ∈ c :: da, (isDigit d || d == '_') = true := by
    intro d hd
    rcases List.mem_cons.1 hd with h | h
    · rw [h, hc]; rfl
    · rw [hda d h]; rfl
  have hip : (c :: (da ++ ['.', b])).span (fun d => isDigit d || d == '_') =
      (c :: da, ['.', b]) := by
    have := span_of_all (fun d => isDigit d || d == '_') (c :: da) ['.', b] hall (by
      intro d r h
      simp only [List.cons.injEq] at h
      rw [← h.1]; decide)
    simpa using this
  have hfp : [b].span (fun d => isDigit d || d == '_') = ([b], []) := by
    have := span_of_all (fun d => isDigit d || d == '_') [b] [] (by
      intro d hd
      rw [List.mem_singleton.1 hd]
      simp only [hb, Bool.true_or]) (by intro d r h; simp at h)
    simpa using this
  have hfi : (c :: da).filter (fun d => d != '_') = c :: da := by
    rw [List.filter_eq_self]
    intro d hd
    have hdd : isDigit d = true := by
      rcases List.mem_cons.1 hd with h | h
      · rw [h]; exact hc
      · exact hda d h
    simpa using ne_of_isDigit d '_' hdd (by decide)
  have hff : [b].filter (fun d => d != '_') = [b] := by
    rw [List.filter_eq_self]
    intro d hd
    rw [List.mem_singleton.1 hd]
    simpa using ne_of_isDigit b '_' hb (by decide)
  have hok := underscoreOK_tenths c b da hc hda hb
  unfold readFloat
  simp only [hsign, hhex, Bool.false_eq_true, if_false, hip, hfp, hfi, hff, hok]
  simp [scaled, digitsValue]

theorem parseFloat_sprintf1 (num : Int) (den : Nat) (hnum : 0 < num) :
    parseFloat (sprintf1 (.finite num den)) =
      match roundFloat64 ((roundTenths num.natAbs den : Nat) : Int) 10 with
      | .finite a b => some (.finite a b)
      | _ => none := by
  have hneg : ¬ num < 0 := by omega
  obtain ⟨hane, hadig, haval⟩ := repr_spec (roundTenths num.natAbs den / 10)
  have hb10 : roundTenths num.natAbs den % 10 < 10 := Nat.mod_lt _ (by decide)
  have hbd := digitChar_spec _ hb10
  have hbdata := repr_digit _ hb10
  cases hda : (Nat.repr (roundTenths num.natAbs den / 10)).data with
  | nil => exact absurd hda hane
  | cons c da =>
    rw [hda] at hadig haval
    have hc : isDigit c = true := hadig c (List.mem_cons_self c da)
    have hdda : ∀ d ∈ da, isDigit d = true := fun d hd => hadig d (List.mem_cons_of_mem c hd)
    have hstr : sprintf1 (.finite num den) =
        String.mk (c :: (da ++ ['.', Nat.digitChar (roundTenths num.natAbs den % 10)])) := by
      apply String.ext
      simp [sprintf1, hneg, String.data_append, hda, hbdata]
    have hval : digitsValue (c :: (da ++ [Nat.digitChar (roundTenths num.natAbs den % 10)])) =
        roundTenths num.natAbs den := by
      rw [← List.cons_append, digitsValue_append_singleton, haval, hbd.2]
      omega
    rw [hstr]
    unfold parseFloat
    simp only [special_digit c _ hc, readFloat_tenths c _ da hc hdda hbd.1, hval,
      Bool.false_eq_true, if_false]

theorem roundFloat64_pos (k : Nat) (hk : 1 ≤ k) (r : Nat × Nat)
    (h : roundPos k 10 = some r) :
    roundFloat64 ((k : Nat) : Int) 10 = .finite (r.1 : Int) r.2 := by
  have h0 : ¬ ((k : Int) = 0) := by omega
  have hn : ¬ ((k : Int) < 0) := by omega
  simp only [roundFloat64, h0, if_false, Int.natAbs_ofNat, h, hn]

theorem tierOf_tenths (k : Nat) :
    tierOf ((k : ℚ) / 10) =
      if k < 25 then "小雨" else if k < 100 then "中雨" else if k < 250 then "大雨"
      else "暴雨" := by
  have h1 : ((k : ℚ) / 10 < 5 / 2) ↔ k < 25 := by
    rw [div_lt_div_iff₀ (by norm_num) (by norm_num)]
    constructor
    · intro h
      have : (k : ℚ) < 25 := by linarith
      exact_mod_cast this
    · intro h
      have : (k : ℚ) < 25 := by exact_mod_cast h
      linarith
  have h2 : ((k : ℚ) / 10 < 10) ↔ k < 100 := by
    rw [div_lt_iff₀ (by norm_num)]
    constructor
    · intro h
      have : (k : ℚ) < 100 := by linarith
      exact_mod_cast this
    · intro h
      have : (k : ℚ) < 100 := by exact_mod_cast h
      linarith
  have h3 : ((k : ℚ) / 10 < 25) ↔ k < 250 := by
    rw [div_lt_iff₀ (by norm_num)]
    constructor
    · intro h
      have : (k : ℚ) < 250 := by linarith
      exact_mod_cast this
    · intro h
      have : (k : ℚ) < 250 := by exact_mod_cast h
      linarith
  unfold tierOf
  simp only [h1, h2, h3]

/-- The intensity computed from the text `%.1f` renders for a positive finite value
is the tier of the number of tenths rendered, provided that number of tenths is in
the range of `float64`. -/
theorem intensityOf_sprintf1 (num : Int) (den : Nat) (hnum : 0 < num)
    (hk : 2 * (roundTenths num.natAbs den * scale64) + 10 * topStep < 2 * (10 * limit64)) :
    intensityOf (sprintf1 (.finite num den)) =
      tierOf ((roundTenths num.natAbs den : ℚ) / 10) := by
  rw [tierOf_tenths]
  unfold intensityOf
  rw [parseFloat_sprintf1 num den hnum]
  generalize roundTenths num.natAbs den = k at hk ⊢
  by_cases hk0 : k = 0
  · subst hk0
    have : roundFloat64 ((0 : Nat) : Int) 10 = .finite 0 1 := by simp [roundFloat64]
    rw [this]
    decide
  · have hk1 : 1 ≤ k := Nat.one_le_iff_ne_zero.2 hk0
    obtain ⟨r, hr⟩ := roundPos_isSome k 10 (by decide) hk
    obtain ⟨t1, t2, t3⟩ := roundPos_tenths_lt_iff k hk1 r hr
    rw [roundFloat64_pos k hk1 r hr]
    have c1 : (Float64.finite (r.1 : Int) r.2).lt (.finite 25 10) = decide (k < 25) := by
      simp only [Float64.lt]
      rw [decide_eq_decide, ← t1]
      constructor
      · intro h; exact_mod_cast h
      · intro h; exact_mod_cast h
    have c2 : (Float64.finite (r.1 : Int) r.2).lt (.finite 10 1) = decide (k < 100) := by
      simp only [Float64.lt]
      rw [decide_eq_decide, ← t2]
      constructor
      · intro h
        have h' : r.1 * 1 < 10 * r.2 := by exact_mod_cast h
        omega
      · intro h
        have h' : r.1 * 1 < 10 * r.2 := by omega
        exact_mod_cast h'
    have c3 : (Float64.finite (r.1 : Int) r.2).lt (.finite 25 1) = decide (k < 250) := by
      simp only [Float64.lt]
      rw [decide_eq_decide, ← t3]
      constructor
      · intro h
        have h' : r.1 * 1 < 25 * r.2 := by exact_mod_cast h
        omega
      · intro h
        have h' : r.1 * 1 < 25 * r.2 := by omega
        exact_mod_cast h'
    simp only [c1, c2, c3, decide_eq_true_eq]

theorem roundNearestEven_spec (a b : Nat) (hb : 0 < b) :
    |(a : ℚ) / (b : ℚ) - (roundNearestEven a b : ℚ)| ≤ 1 / 2 ∧
      (|(a : ℚ) / (b : ℚ) - (roundNearestEven a b : ℚ)| = 1 / 2 →
        Even (roundNearestEven a b)) := by
  have hd : (0 : ℚ) < (b : ℚ) := by exact_mod_cast hb
  have hdiv : b * (a / b) + a % b = a := Nat.div_add_mod _ _
  have hdivq : (b : ℚ) * ((a / b : Nat) : ℚ) + ((a % b : Nat) : ℚ) = (a : ℚ) := by
    exact_mod_cast hdiv
  have hx : (a : ℚ) / (b : ℚ) = ((a / b : Nat) : ℚ) + ((a % b : Nat) : ℚ) / (b : ℚ) := by
    field_simp
    linarith
  have hr0 : (0 : ℚ) ≤ ((a % b : Nat) : ℚ) := Nat.cast_nonneg _
  have hrlt : ((a % b : Nat) : ℚ) < (b : ℚ) := by
    exact_mod_cast Nat.mod_lt _ hb
  have hfrac0 : (0 : ℚ) ≤ ((a % b : Nat) : ℚ) / (b : ℚ) := div_nonneg hr0 hd.le
  have hfrac1 : ((a % b : Nat) : ℚ) / (b : ℚ) < 1 := (div_lt_one hd).2 hrlt
  unfold roundNearestEven
  simp only []
  by_cases hlo : 2 * (a % b) < b
  · have hloq : 2 * ((a % b : Nat) : ℚ) < (b : ℚ) := by exact_mod_cast hlo
    have hhalf : ((a % b : Nat) : ℚ) / (b : ℚ) < 1 / 2 := by
      rw [div_lt_iff₀ hd]; linarith
    rw [if_pos hlo, hx]
    have habs : |((a / b : Nat) : ℚ) + ((a % b : Nat) : ℚ) / (b : ℚ) -
        ((a / b : Nat) : ℚ)| = ((a % b : Nat) : ℚ) / (b : ℚ) := by
      rw [add_sub_cancel_left, abs_of_nonneg hfrac0]
    rw [habs]
    exact ⟨hhalf.le, fun h => absurd h (ne_of_lt hhalf)⟩
  · rw [if_neg hlo]
    by_cases hhi : b < 2 * (a % b)
    · have hhiq : (b : ℚ) < 2 * ((a % b : Nat) : ℚ) := by exact_mod_cast hhi
      have hhalf : 1 / 2 < ((a % b : Nat) : ℚ) / (b : ℚ) := by
        rw [lt_div_iff₀ hd]; linarith
      rw [if_pos hhi, hx]
      have habs : |((a / b : Nat) : ℚ) + ((a % b : Nat) : ℚ) / (b : ℚ) -
          ((a / b + 1 : Nat) : ℚ)| = 1 - ((a % b : Nat) : ℚ) / (b : ℚ) := by
        rw [Nat.cast_add, Nat.cast_one]
        have hneg : ((a / b : Nat) : ℚ) + ((a % b : Nat) : ℚ) / (b : ℚ) -
            (((a / b : Nat) : ℚ) + 1) ≤ 0 := by linarith
        rw [abs_of_nonpos hneg]; ring
      rw [habs]
      exact ⟨by linarith, fun h => absurd h (by linarith)⟩
    · rw [if_neg hhi]
      have htie : 2 * (a % b) = b := by omega
      have htieq : 2 * ((a % b : Nat) : ℚ) = (b : ℚ) := by exact_mod_cast htie
      have hhalf : ((a % b : Nat) : ℚ) / (b : ℚ) = 1 / 2 := by
        rw [div_eq_iff (ne_of_gt hd)]; linarith
      by_cases hev : a / b % 2 = 0
      · rw [if_pos hev, hx, hhalf]
        have habs : |((a / b : Nat) : ℚ) + 1 / 2 - ((a / b : Nat) : ℚ)| = 1 / 2 := by
          rw [add_sub_cancel_left]; norm_num
        rw [habs]
        exact ⟨le_refl _, fun _ => Nat.even_iff.2 hev⟩
      · rw [if_neg hev, hx, hhalf]
        have habs : |((a / b : Nat) : ℚ) + 1 / 2 - ((a / b + 1 : Nat) : ℚ)| = 1 / 2 := by
          rw [Nat.cast_add, Nat.cast_one]
          rw [show ((a / b : Nat) : ℚ) + 1 / 2 - (((a / b : Nat) : ℚ) + 1) = -(1 / 2) by ring]
          norm_num
        rw [habs]
        refine ⟨le_refl _, fun _ => Nat.even_iff.2 ?_⟩
        omega

/-! ## Lemmas on the total and the average amount -/

theorem tallyLoop_snd (hs : List HourlyEntry) :
    ∀ (m : List (String × Nat)) (total : Float64),
      (tallyLoop (hs.map periodOf) m total).2 =
        (hs.map fun h => h.Precip).foldl
          (fun total amount =>
            match parseFloat amount with
            | some v => total.add v
            | none => total)
          total := by
  induction hs with
  | nil => intro m total; rfl
  | cons h rest ih =>
    intro m total
    simp only [List.map_cons, List.foldl_cons]
    unfold tallyLoop
    have hp : (periodOf h).precip = h.Precip := rfl
    rw [hp]
    cases parseFloat h.Precip with
    | none => exact ih _ _
    | some v => exact ih _ _

theorem total_of_hits (hs : List HourlyEntry) :
    (tallyLoop (hs.map periodOf) [] Float64.zero).2 = floatTotal (hs.map fun h => h.Precip) :=
  tallyLoop_snd hs [] Float64.zero

theorem roundFloat64_cases (n : Int) (d : Nat) :
    (n = 0 ∧ roundFloat64 n d = .finite 0 1) ∨
      (n ≠ 0 ∧ ∃ r, roundPos n.natAbs d = some r ∧
        roundFloat64 n d = .finite (if n < 0 then -(r.1 : Int) else (r.1 : Int)) r.2) ∨
      (n ≠ 0 ∧ roundPos n.natAbs d = none ∧ roundFloat64 n d = .inf (decide (n < 0))) := by
  by_cases h0 : n = 0
  · left; exact ⟨h0, by simp [roundFloat64, h0]⟩
  · right
    cases hr : roundPos n.natAbs d with
    | some r => left; exact ⟨h0, r, rfl, by simp [roundFloat64, h0, hr]⟩
    | none => right; exact ⟨h0, rfl, by simp [roundFloat64, h0, hr]⟩

theorem roundPos_den (n d : Nat) (r : Nat × Nat) (h : roundPos n d = some r) :
    r.2 = scale64 := by
  unfold roundPos at h
  simp only [] at h
  split_ifs at h
  simp only [Option.some.injEq] at h
  rw [← h]

theorem roundFloat64_den_pos (n : Int) (d : Nat) (a : Int) (b : Nat)
    (h : roundFloat64 n d = .finite a b) : 0 < b := by
  rcases roundFloat64_cases n d with ⟨_, h1⟩ | ⟨_, r, hr, h1⟩ | ⟨_, _, h1⟩
  · rw [h1] at h
    simp only [Float64.finite.injEq] at h
    omega
  · rw [h1] at h
    simp only [Float64.finite.injEq] at h
    rw [← h.2, roundPos_den _ _ r hr]
    exact scale64_pos
  · rw [h1] at h
    exact absurd h (by simp)

theorem add_den_pos (x y : Float64) (a : Int) (b : Nat) (h : x.add y = .finite a b) :
    0 < b := by
  cases x with
  | finite xa xb =>
    cases y with
    | finite ya yb => exact roundFloat64_den_pos _ _ a b h
    | inf t => simp [Float64.add] at h
    | nan => simp [Float64.add] at h
  | inf s =>
    cases y with
    | finite ya yb => simp [Float64.add] at h
    | inf t =>
      simp only [Float64.add] at h
      split_ifs at h
    | nan => simp [Float64.add] at h
  | nan => simp [Float64.add] at h

theorem floatTotal_den_pos (amounts : List String) :
    ∀ (t : Float64), (∀ a b, t = .finite a b → 0 < b) →
      ∀ a b, amounts.foldl
          (fun total amount =>
            match parseFloat amount with
            | some v => total.add v
            | none => total)
          t = .finite a b → 0 < b := by
  induction amounts with
  | nil => intro t ht a b h; exact ht a b h
  | cons s rest ih =>
    intro t ht a b h
    simp only [List.foldl_cons] at h
    cases hp : parseFloat s with
    | none =>
      rw [hp] at h
      exact ih t ht a b h
    | some v =>
      rw [hp] at h
      exact ih (t.add v) (fun a' b' h' => add_den_pos t v a' b' h') a b h

theorem pos_of_mul_natCast_pos (a : Int) (l : Nat) (h : 0 < a * (l : Int)) : 0 < a := by
  by_contra hc
  have : a * (l : Int) ≤ 0 :=
    Int.mul_nonpos_of_nonpos_of_nonneg (by omega) (Int.ofNat_nonneg _)
  omega

/-- A finite positive quotient comes from a positive total and is a `float64` within
range. -/
theorem divLen_finite_pos (x : Float64) (n : Nat) (num : Int) (den : Nat)
    (hx : ∀ a b, x = .finite a b → 0 < b)
    (h : x.divLen n = .finite num den) (hpos : 0 < num) :
    x.isPos = true ∧ den = scale64 ∧ num.natAbs + topStep ≤ limit64 := by
  cases x with
  | inf s => simp [Float64.divLen] at h
  | nan => simp [Float64.divLen] at h
  | finite a b =>
    have hb : 0 < b := hx a b rfl
    simp only [Float64.divLen] at h
    by_cases hl : (Float64.ofLen n).1 = 0
    · rw [if_pos hl] at h
      split_ifs at h
    · rw [if_neg hl] at h
      have hd : 0 < b * (Float64.ofLen n).1 := Nat.mul_pos hb (Nat.pos_of_ne_zero hl)
      rcases roundFloat64_cases (a * ((Float64.ofLen n).2 : Int)) (b * (Float64.ofLen n).1)
        with ⟨_, h1⟩ | ⟨h0, r, hr, h1⟩ | ⟨_, _, h1⟩
      · rw [h1] at h
        simp only [Float64.finite.injEq] at h
        omega
      · rw [h1] at h
        simp only [Float64.finite.injEq] at h
        obtain ⟨hr2, hr1⟩ := roundPos_some_bound _ _ hd r hr
        by_cases hneg : a * ((Float64.ofLen n).2 : Int) < 0
        · rw [if_pos hneg] at h
          omega
        · rw [if_neg hneg] at h
          have ha : 0 < a := pos_of_mul_natCast_pos a (Float64.ofLen n).2 (by omega)
          refine ⟨by simp [Float64.isPos, ha], by rw [← h.2, hr2], ?_⟩
          rw [← h.1]
          simpa using hr1
      · rw [h1] at h
        exact absurd h (by simp)

theorem divLen_inf_pos (x : Float64) (n : Nat) (h : x.divLen n = .inf false) :
    x.isPos = true := by
  cases x with
  | inf s =>
    simp only [Float64.divLen, Float64.inf.injEq] at h
    simp [Float64.isPos, h]
  | nan => simp [Float64.divLen] at h
  | finite a b =>
    simp only [Float64.divLen] at h
    by_cases hl : (Float64.ofLen n).1 = 0
    · rw [if_pos hl] at h
      by_cases ha0 : a = 0
      · rw [if_pos ha0] at h
        exact absurd h (by simp)
      · rw [if_neg ha0] at h
        simp only [Float64.inf.injEq, decide_eq_false_iff_not] at h
        have : 0 < a := by omega
        simp [Float64.isPos, this]
    · rw [if_neg hl] at h
      rcases roundFloat64_cases (a * ((Float64.ofLen n).2 : Int)) (b * (Float64.ofLen n).1)
        with ⟨_, h1⟩ | ⟨_, r, _, h1⟩ | ⟨h0, _, h1⟩
      · rw [h1] at h
        exact absurd h (by simp)
      · rw [h1] at h
        exact absurd h (by simp)
      · rw [h1] at h
        simp only [Float64.inf.injEq, decide_eq_false_iff_not] at h
        have ha : 0 < a := pos_of_mul_natCast_pos a (Float64.ofLen n).2 (by omega)
        simp [Float64.isPos, ha]

theorem ofLen_ne_zero (n : Nat) (hn : 1 ≤ n) : (Float64.ofLen n).1 ≠ 0 := by
  have hn0 : ¬ n = 0 := by omega
  simp only [Float64.ofLen, hn0, if_false]
  cases hr : roundPos n 1 with
  | none => simpa using hn0
  | some r =>
    simp only [Option.getD_some]
    unfold roundPos at hr
    simp only [] at hr
    split_ifs at hr with hov
    simp only [Option.some.injEq] at hr
    rw [← hr]
    simp only [Nat.div_one, one_mul] at *
    have hE := scale64_ge
    have hs : scale64 ≤ n * scale64 := Nat.le_mul_of_pos_left _ hn
    have ht1 : 1 ≤ n * scale64 := by omega
    obtain ⟨l1, l2⟩ := floorLog2_spec _ ht1
    have hL : 52 ≤ floorLog2 (n * scale64) := by
      have h3 : 2 ^ 52 < 2 ^ (floorLog2 (n * scale64) + 1) := by
        have : 2 ^ 52 ≤ n * scale64 := by omega
        exact lt_of_le_of_lt this l2
      have h4 := (Nat.pow_lt_pow_iff_right (by decide)).1 h3
      omega
    have hsplit : floorLog2 (n * scale64) - 52 + 52 = floorLog2 (n * scale64) := by omega
    have hpow : 2 ^ (floorLog2 (n * scale64) - 52) * 2 ^ 52 = 2 ^ floorLog2 (n * scale64) := by
      have h3 := pow_add (2 : Nat) (floorLog2 (n * scale64) - 52) 52
      rw [hsplit] at h3
      exact h3.symm
    have hQ : 0 < 2 ^ (floorLog2 (n * scale64) - 52) := Nat.pos_pow_of_pos _ (by decide)
    have hb := (roundNearestEven_bounds (n * scale64) (2 ^ (floorLog2 (n * scale64) - 52)) hQ).2
    rw [← hpow] at l1
    intro hzero
    rcases Nat.mul_eq_zero.1 hzero with hm | hq
    · rw [hm] at hb
      generalize 2 ^ (floorLog2 (n * scale64) - 52) = Q at hb l1 hQ
      generalize n * scale64 = s at hb l1
      norm_num at l1 hb
      omega
    · omega

/-! ## Claims -/

/-- C1 (as stated, refuted): for the description "晴" and the empty amount text
the code answers `true`, while the claim (no keyword, unparseable amount) demands
`false`. -/
theorem checkWeatherPrecipitation_empty_amount :
    checkWeatherPrecipitation "晴" "" = true ∧ isPrecipitatingSpec "晴" "" = false ∧
      parseFloat "" = none ∧ keywordLoop "晴" rainWeather = false := by
  decide

/-- C1 (amended): `checkWeatherPrecipitation` returns `true` exactly when the
description contains one of the fixed keywords as a substring, or the amount text
differs from both "0.0" and "0". -/
theorem checkWeatherPrecipitation_iff (text precip : String) :
    checkWeatherPrecipitation text precip = true ↔
      (∃ k ∈ rainWeather, k.data <:+: text.data) ∨ (precip ≠ "0.0" ∧ precip ≠ "0") := by
  unfold checkWeatherPrecipitation
  rw [← keywordLoop_iff]
  by_cases hk : keywordLoop text rainWeather = true
  · simp [hk]
  · by_cases hp : precip ≠ "0.0" ∧ precip ≠ "0"
    · simp [hk, hp]
    · simp only [hk, hp, if_false, or_self]
      simp

/-- C10 (violated by the table): the distinct names "南宁" and "广州" are both
resolved by `getCityID`, from the table, to the identifier "101280101". -/
theorem getCityID_nanning_guangzhou (remoteLookup : String → Except String String) :
    getCityID remoteLookup "南宁" = .ok "101280101" ∧
      getCityID remoteLookup "广州" = .ok "101280101" ∧ "南宁" ≠ "广州" := by
  refine ⟨?_, ?_, by decide⟩
  · have h : mapLookup cityIdMap "南宁" = some "101280101" := by decide
    simp only [getCityID, h]
  · have h : mapLookup cityIdMap "广州" = some "101280101" := by decide
    simp only [getCityID, h]

/-- C3 (as stated, refuted): in test mode a reading whose current-precipitation flag
is set gets the canned forecast, whose start label is "15:30" and not "当前". -/
theorem getPrecipitationForecast_testMode_current :
    (getPrecipitationForecast true id exampleNow
        { Now := rainyNow, HasCurrentPrecipitation := true }).StartTime = "15:30" ∧
      (getPrecipitationForecast true id exampleNow
        { Now := rainyNow, HasCurrentPrecipitation := true }).StartTime ≠ "当前" := by
  decide

/-- C3 (amended): with test mode off, a reading whose current-precipitation flag is
set yields, whatever its hourly series and the current time, the forecast with
`WillPrecipitate = true`, start "当前", end "正在降水", the current description as
weather type, intensity "当前降水" and the current amount followed by "mm". -/
theorem getPrecipitationForecast_current
    (rangeOrder : List (String × Nat) → List (String × Nat)) (now : Time)
    (weather : WeatherResponse) (h : weather.HasCurrentPrecipitation = true) :
    getPrecipitationForecast false rangeOrder now weather =
      { WillPrecipitate := true, StartTime := "当前", EndTime := "正在降水",
        WeatherType := weather.Now.Text, Intensity := "当前降水",
        PrecipAmount := weather.Now.Precip ++ "mm" } := by
  simp [getPrecipitationForecast, h]

/-- Witness of C3 (amended): the rainy reading with the series `gapSeries`. -/
theorem getPrecipitationForecast_current_witness :
    ({ Now := rainyNow, Hourly := gapSeries, HasCurrentPrecipitation := true } :
        WeatherResponse).HasCurrentPrecipitation = true ∧
    getPrecipitationForecast false List.reverse exampleNow
        { Now := rainyNow, Hourly := gapSeries, HasCurrentPrecipitation := true } =
      { WillPrecipitate := true, StartTime := "当前", EndTime := "正在降水",
        WeatherType := "小雨", Intensity := "当前降水", PrecipAmount := "1.2mm" } :=
  ⟨rfl, getPrecipitationForecast_current List.reverse exampleNow
    { Now := rainyNow, Hourly := gapSeries, HasCurrentPrecipitation := true } rfl⟩

/-- C7 (violated by the code): both fetches succeed, the current observation is
light rain with amount 1.2, which `checkWeatherPrecipitation` flags, and the
composite returned by `fetchWeather` has its current-precipitation flag `false`. -/
theorem fetchWeather_flag_false_on_rain :
    fetchWeather exampleConfig (fun _ => .error "unused") echoGet
        (fun b => if b = "now" then some { Code := "200", Now := rainyNow } else none)
        (fun b => if b = "24h" then some { Code := "200", Hourly := gapSeries } else none)
        "广州" =
      .ok { Code := "200", Now := rainyNow, Hourly := gapSeries,
            HasCurrentPrecipitation := false } ∧
      checkWeatherPrecipitation rainyNow.Text rainyNow.Precip = true := by
  decide

/-- C2: with test mode off and the current-precipitation flag false, the forecast
has `WillPrecipitate = true` exactly when some hourly entry has a timestamp that
parses to a time `t` with `now < t ≤ now + 3h` and is flagged by
`checkWeatherPrecipitation`; when it is false every other field is empty, and
this is the case for the empty series. -/
theorem getPrecipitationForecast_willPrecipitate_iff
    (rangeOrder : List (String × Nat) → List (String × Nat)) (now : Time)
    (weather : WeatherResponse) (hflag : weather.HasCurrentPrecipitation = false) :
    ((getPrecipitationForecast false rangeOrder now weather).WillPrecipitate = true ↔
        ∃ hour ∈ weather.Hourly, ∃ t, timeParse hour.FxTime = some t ∧
          now.unixNano < t.unixNano ∧ t.unixNano ≤ now.unixNano + threeHours ∧
          checkWeatherPrecipitation hour.Text hour.Precip = true) ∧
      ((getPrecipitationForecast false rangeOrder now weather).WillPrecipitate = false →
        getPrecipitationForecast false rangeOrder now weather = ⟨false, "", "", "", "", ""⟩) ∧
      (weather.Hourly = [] →
        getPrecipitationForecast false rangeOrder now weather = ⟨false, "", "", "", "", ""⟩) := by
  by_cases hno : hits now weather.Hourly = []
  · have hf := forecast_of_no_hits rangeOrder now weather hflag hno
    have hnone := (hits_eq_nil_iff now weather.Hourly).1 hno
    refine ⟨?_, fun _ => hf, fun _ => hf⟩
    rw [hf]
    constructor
    · intro h; exact absurd h (by decide)
    · rintro ⟨hour, hmem, hh⟩
      exact absurd ⟨hour, hmem, (isHit_iff now hour).2 hh⟩ hnone
  · have hf := forecast_of_hits rangeOrder now weather hflag hno
    have hsome : ∃ hour ∈ weather.Hourly, isHit now hour = true := by
      by_contra hc
      exact hno ((hits_eq_nil_iff now weather.Hourly).2 hc)
    refine ⟨?_, ?_, ?_⟩
    · rw [hf]
      constructor
      · intro _
        obtain ⟨hour, hmem, hh⟩ := hsome
        exact ⟨hour, hmem, (isHit_iff now hour).1 hh⟩
      · intro _; rfl
    · rw [hf]; intro h; exact absurd h (by simp)
    · intro hnil
      rw [hnil] at hno
      exact absurd rfl hno

/-- Witness of C2: the series `gapSeries` seen at `exampleNow`. -/
theorem getPrecipitationForecast_willPrecipitate_iff_witness :
    ({ Hourly := gapSeries } : WeatherResponse).HasCurrentPrecipitation = false ∧
    (((getPrecipitationForecast false id exampleNow { Hourly := gapSeries }).WillPrecipitate = true ↔
        ∃ hour ∈ gapSeries, ∃ t, timeParse hour.FxTime = some t ∧
          exampleNow.unixNano < t.unixNano ∧ t.unixNano ≤ exampleNow.unixNano + threeHours ∧
          checkWeatherPrecipitation hour.Text hour.Precip = true) ∧
      ((getPrecipitationForecast false id exampleNow { Hourly := gapSeries }).WillPrecipitate = false →
        getPrecipitationForecast false id exampleNow { Hourly := gapSeries } =
          ⟨false, "", "", "", "", ""⟩) ∧
      (gapSeries = [] →
        getPrecipitationForecast false id exampleNow { Hourly := gapSeries } =
          ⟨false, "", "", "", "", ""⟩)) :=
  ⟨rfl, getPrecipitationForecast_willPrecipitate_iff id exampleNow { Hourly := gapSeries } rfl⟩

/-- C4: with test mode off, the current flag false and at least one hit in
`(now, now + 3h]`, the first and the last hit in series order have timestamps that
parse, and `StartTime`, `EndTime` are the `HH:MM` formattings of these two times,
whatever lies between them. -/
theorem getPrecipitationForecast_window_labels
    (rangeOrder : List (String × Nat) → List (String × Nat)) (now : Time)
    (weather : WeatherResponse) (hflag : weather.HasCurrentPrecipitation = false)
    (hne : hits now weather.Hourly ≠ []) :
    ∃ tFirst tLast,
      timeParse ((hits now weather.Hourly).head hne).FxTime = some tFirst ∧
      timeParse ((hits now weather.Hourly).getLast hne).FxTime = some tLast ∧
      (getPrecipitationForecast false rangeOrder now weather).StartTime = timeFormat tFirst ∧
      (getPrecipitationForecast false rangeOrder now weather).EndTime = timeFormat tLast := by
  have hfirst : isHit now ((hits now weather.Hourly).head hne) = true :=
    (List.mem_filter.1 (List.head_mem hne)).2
  have hlast : isHit now ((hits now weather.Hourly).getLast hne) = true :=
    (List.mem_filter.1 (List.getLast_mem hne)).2
  obtain ⟨t0, hp0, hl0⟩ := clockLabel_of_isHit now _ hfirst
  obtain ⟨t1, hp1, hl1⟩ := clockLabel_of_isHit now _ hlast
  refine ⟨t0, t1, hp0, hp1, ?_, ?_⟩
  · rw [forecast_of_hits rangeOrder now weather hflag hne]; exact hl0
  · rw [forecast_of_hits rangeOrder now weather hflag hne]; exact hl1

/-- The hits of `gapSeries` at `exampleNow`: the entries at +1h and +3h. -/
theorem hits_gapSeries :
    hits exampleNow gapSeries =
      [ { FxTime := "2024-06-01T09:00+08:00", Text := "小雨", Precip := "1.0" },
        { FxTime := "2024-06-01T11:00+08:00", Text := "中雨", Precip := "4.0" } ] := by
  decide

/-- Witness of C4: hits at +1h and +3h around a dry hour at +2h give the window
from "09:00" to "11:00". -/
theorem getPrecipitationForecast_window_labels_witness :
    ({ Hourly := gapSeries } : WeatherResponse).HasCurrentPrecipitation = false ∧
    hits exampleNow gapSeries ≠ [] ∧
    (getPrecipitationForecast false id exampleNow { Hourly := gapSeries }).StartTime = "09:00" ∧
    (getPrecipitationForecast false id exampleNow { Hourly := gapSeries }).EndTime = "11:00" ∧
    ∃ tFirst tLast,
      timeParse ((hits exampleNow gapSeries).head (by decide)).FxTime = some tFirst ∧
      timeParse ((hits exampleNow gapSeries).getLast (by decide)).FxTime = some tLast ∧
      (getPrecipitationForecast false id exampleNow { Hourly := gapSeries }).StartTime =
        timeFormat tFirst ∧
      (getPrecipitationForecast false id exampleNow { Hourly := gapSeries }).EndTime =
        timeFormat tLast :=
  ⟨rfl, by decide, by decide, by decide,
    getPrecipitationForecast_window_labels id exampleNow { Hourly := gapSeries } rfl (by decide)⟩

/-- C6: with a maximum of `N ≥ 1` attempts, `fetchWeatherData` requests in order
until the first outcome that is not a transport fault or until `N` requests were
made.  When request `k + 1 ≤ N` is the first to get a response, the run is `k`
failed requests, request `i` followed by a sleep of `i` seconds, then request `k + 1`
and nothing more: `k + 1` attempts, sleeps `1, .., k`, and the result decided by
that response alone, an error when the status is not 200, the body unreadable, the
decoding fails or the provider code is not "200".  When all `N` requests meet a
transport fault the run is `N` attempts, sleeps `1, .., N - 1`, and an error. -/
theorem fetchWeatherData_retry {α : Type} (N : Nat) (hN : 1 ≤ N) (get : Nat → GetResult)
    (unmarshal : String → Option α) (codeOf : α → String) :
    (∀ k statusCode body, k < N → (∀ i, i < k → get i = .transportError) →
        get k = .response statusCode body →
        fetchWeatherData (N : Int) get unmarshal codeOf =
            (retrySteps 0 k ++ [Event.request (k + 1)],
              handleResponse unmarshal codeOf statusCode body) ∧
          attemptsOf (fetchWeatherData (N : Int) get unmarshal codeOf).1 = k + 1 ∧
          sleepsOf (fetchWeatherData (N : Int) get unmarshal codeOf).1 = List.range' 1 k ∧
          ((statusCode ≠ 200 ∨ body = none ∨ ∃ b, body = some b ∧
              (unmarshal b = none ∨ ∃ v, unmarshal b = some v ∧ codeOf v ≠ "200")) →
            ∃ e, (fetchWeatherData (N : Int) get unmarshal codeOf).2 = .error e)) ∧
      ((∀ i, i < N → get i = .transportError) →
        fetchWeatherData (N : Int) get unmarshal codeOf =
            (retrySteps 0 (N - 1) ++ [Event.request N], .error .requestFailed) ∧
          attemptsOf (fetchWeatherData (N : Int) get unmarshal codeOf).1 = N ∧
          sleepsOf (fetchWeatherData (N : Int) get unmarshal codeOf).1 = List.range' 1 (N - 1)) := by
  constructor
  · intro k statusCode body hk hfault hget
    have hrun : fetchWeatherData (N : Int) get unmarshal codeOf =
        (retrySteps 0 k ++ [Event.request (k + 1)],
          handleResponse unmarshal codeOf statusCode body) := by
      have h := fetchLoop_response N get unmarshal codeOf k statusCode body hk hget N 0
        (by omega) (Nat.zero_le k) (fun j _ hj => hfault j hj)
      simpa [fetchWeatherData] using h
    refine ⟨hrun, ?_, ?_, ?_⟩
    · rw [hrun]
      have h := attemptsOf_retrySteps 0 k
      simp only [attemptsOf] at h ⊢
      simp [List.countP_append, h]
    · rw [hrun]
      have h := sleepsOf_retrySteps 0 k
      simp only [sleepsOf] at h ⊢
      simp [List.filterMap_append, h]
    · intro hbad
      rw [hrun]
      exact handleResponse_error unmarshal codeOf statusCode body hbad
  · intro hfault
    have hrun : fetchWeatherData (N : Int) get unmarshal codeOf =
        (retrySteps 0 (N - 1) ++ [Event.request N], .error .requestFailed) := by
      have h := fetchLoop_allFaults N get unmarshal codeOf hfault (N - 1) 0 (by omega)
      have hN2 : N - 1 + 1 = N := by omega
      rw [hN2] at h
      simpa [fetchWeatherData] using h
    refine ⟨hrun, ?_, ?_⟩
    · rw [hrun]
      have h := attemptsOf_retrySteps 0 (N - 1)
      simp only [attemptsOf] at h ⊢
      simp only [List.countP_append, h]
      simp [List.countP_cons]
      omega
    · rw [hrun]
      have h := sleepsOf_retrySteps 0 (N - 1)
      simp only [sleepsOf] at h ⊢
      simp [List.filterMap_append, h]

/-- Witness of C6: with `N = 3`, a transport fault on every attempt gives three
requests with sleeps of 1 s and 2 s between them and an error; an HTTP 500 on the
first attempt gives an error after one request and no sleep. -/
theorem fetchWeatherData_retry_witness :
    1 ≤ 3 ∧
      fetchWeatherData (α := Unit) ((3 : Nat) : Int) (fun _ => .transportError)
          (fun _ => some ()) (fun _ => "200") =
        ([.request 1, .sleep 1, .request 2, .sleep 2, .request 3], .error .requestFailed) ∧
      fetchWeatherData (α := Unit) ((3 : Nat) : Int) (fun _ => .response 500 (some ""))
          (fun _ => some ()) (fun _ => "200") =
        ([.request 1], .error (.badStatus 500)) :=
  ⟨by decide,
    ((fetchWeatherData_retry (α := Unit) 3 (by decide) (fun _ => .transportError)
      (fun _ => some ()) (fun _ => "200")).2 (fun _ _ => rfl)).1,
    ((fetchWeatherData_retry (α := Unit) 3 (by decide) (fun _ => .response 500 (some ""))
      (fun _ => some ()) (fun _ => "200")).1 0 500 (some "") (by decide)
      (fun i hi => absurd hi (Nat.not_lt_zero i)) rfl).1⟩

/-- C8 (as stated, refuted): on the series `gapSeries` the hits are "小雨" then "中雨",
once each; when the range over the map of counts visits the keys in insertion order
the weather type is "小雨", when it visits them in the opposite order it is "中雨",
the description encountered second.  Both orders enumerate the map. -/
theorem weatherType_depends_on_rangeOrder :
    hitTexts exampleNow gapSeries = ["小雨", "中雨"] ∧
      (∀ m : List (String × Nat), (id m).Perm m) ∧
      (∀ m : List (String × Nat), (List.reverse m).Perm m) ∧
      (getPrecipitationForecast false id exampleNow { Hourly := gapSeries }).WeatherType = "小雨" ∧
      (getPrecipitationForecast false List.reverse exampleNow
        { Hourly := gapSeries }).WeatherType = "中雨" :=
  ⟨by decide, fun _ => List.Perm.refl _, fun m => List.reverse_perm m, by decide, by decide⟩

/-- C8 (amended): with test mode off, the current flag false and at least one hit,
whatever the order in which the range visits the keys of the map of counts, the
returned weather type is a description of a hit that occurs among the hits at least
as often as every other description; among the descriptions of maximal count it is
the one the range visits first. -/
theorem getPrecipitationForecast_weatherType
    (rangeOrder : List (String × Nat) → List (String × Nat))
    (hperm : ∀ m, (rangeOrder m).Perm m) (now : Time)
    (weather : WeatherResponse) (hflag : weather.HasCurrentPrecipitation = false)
    (hne : hits now weather.Hourly ≠ []) :
    (getPrecipitationForecast false rangeOrder now weather).WeatherType ∈
        hitTexts now weather.Hourly ∧
      (∀ d, (hitTexts now weather.Hourly).count d ≤
        (hitTexts now weather.Hourly).count
          (getPrecipitationForecast false rangeOrder now weather).WeatherType) ∧
      ∃ before after,
        (rangeOrder (tallyMap [] (hitTexts now weather.Hourly))).map Prod.fst =
          before ++ (getPrecipitationForecast false rangeOrder now weather).WeatherType :: after ∧
        ∀ d ∈ before, (hitTexts now weather.Hourly).count d <
          (hitTexts now weather.Hourly).count
            (getPrecipitationForecast false rangeOrder now weather).WeatherType := by
  have hmap : (tallyLoop ((hits now weather.Hourly).map periodOf) [] Float64.zero).1 =
      tallyMap [] (hitTexts now weather.Hourly) := by
    rw [tallyLoop_fst, hitTexts, List.map_map]; rfl
  have hw : (getPrecipitationForecast false rangeOrder now weather).WeatherType =
      maxLoop (rangeOrder (tallyMap [] (hitTexts now weather.Hourly))) "" 0 := by
    rw [forecast_of_hits rangeOrder now weather hflag hne, hmap]
  rw [hw]
  generalize hds : hitTexts now weather.Hourly = ds
  have hdsne : ds ≠ [] := by
    rw [← hds, hitTexts]
    simpa using hne
  have hcount : ∀ k, lookupCount (tallyMap [] ds) k = ds.count k := by
    intro k
    rw [lookupCount_tallyMap]
    simp [lookupCount]
  have hnodup : ((tallyMap [] ds).map Prod.fst).Nodup :=
    nodup_keys_tallyMap [] ds (by simp)
  have hentry : ∀ k c, (k, c) ∈ rangeOrder (tallyMap [] ds) → c = ds.count k := by
    intro k c hmem
    have hm : (k, c) ∈ tallyMap [] ds := (hperm _).mem_iff.1 hmem
    rw [← hcount k, lookupCount_of_mem _ hnodup k c hm]
  have hin : ∀ k, k ∈ ds → (k, ds.count k) ∈ rangeOrder (tallyMap [] ds) := by
    intro k hk
    have hpos : 0 < lookupCount (tallyMap [] ds) k := by
      rw [hcount k]; exact List.count_pos_iff.2 hk
    have := mem_of_lookupCount_pos _ k hpos
    rw [hcount k] at this
    exact (hperm _).mem_iff.2 this
  rcases maxLoop_spec (rangeOrder (tallyMap [] ds)) "" 0 with ⟨_, hall⟩ | ⟨pre, c, post, hl, hc, hpre, hpost⟩
  · exfalso
    obtain ⟨d0, hd0⟩ := List.exists_mem_of_ne_nil ds hdsne
    have h1 := hall _ (hin d0 hd0)
    have h2 : 0 < ds.count d0 := List.count_pos_iff.2 hd0
    simp only at h1
    omega
  · set w := maxLoop (rangeOrder (tallyMap [] ds)) "" 0 with hwdef
    have hwmem : (w, c) ∈ rangeOrder (tallyMap [] ds) := by
      rw [hl]; simp
    have hcw : c = ds.count w := hentry w c hwmem
    have hall : ∀ e ∈ rangeOrder (tallyMap [] ds), e.2 ≤ c := by
      intro e he
      rw [hl] at he
      rcases List.mem_append.1 he with h | h
      · exact Nat.le_of_lt (hpre e h)
      · rcases List.mem_cons.1 h with h | h
        · subst h; exact le_refl _
        · exact hpost e h
    refine ⟨?_, ?_, pre.map Prod.fst, post.map Prod.fst, ?_, ?_⟩
    · exact List.count_pos_iff.1 (by omega)
    · intro d
      by_cases hd : d ∈ ds
      · have := hall _ (hin d hd)
        simp only at this
        omega
      · rw [List.count_eq_zero.2 hd]; exact Nat.zero_le _
    · rw [hl]; simp
    · intro d hd
      obtain ⟨e, he, hed⟩ := List.mem_map.1 hd
      have hlt := hpre e he
      have hmem : e ∈ rangeOrder (tallyMap [] ds) := by
        rw [hl]; exact List.mem_append_left _ he
      obtain ⟨k, c1⟩ := e
      simp only at hed hlt
      subst hed
      have := hentry k c1 hmem
      omega

/-- Witness of C8 (amended): the series `gapSeries` with the map visited in reverse
insertion order. -/
theorem getPrecipitationForecast_weatherType_witness :
    (∀ m : List (String × Nat), (List.reverse m).Perm m) ∧
    ({ Hourly := gapSeries } : WeatherResponse).HasCurrentPrecipitation = false ∧
    hits exampleNow gapSeries ≠ [] ∧
    (getPrecipitationForecast false List.reverse exampleNow { Hourly := gapSeries }).WeatherType ∈
        hitTexts exampleNow gapSeries ∧
      (∀ d, (hitTexts exampleNow gapSeries).count d ≤
        (hitTexts exampleNow gapSeries).count
          (getPrecipitationForecast false List.reverse exampleNow
            { Hourly := gapSeries }).WeatherType) :=
  ⟨fun m => List.reverse_perm m, rfl, by decide,
    (getPrecipitationForecast_weatherType List.reverse (fun m => List.reverse_perm m)
      exampleNow { Hourly := gapSeries } rfl (by decide)).1,
    (getPrecipitationForecast_weatherType List.reverse (fun m => List.reverse_perm m)
      exampleNow { Hourly := gapSeries } rfl (by decide)).2.1⟩

/-- C5 (as stated, refuted): a single hit of amount 2.46 has a positive `float64`
average below 2.5, which the threshold table puts in the light tier "小雨", and the
returned intensity is the moderate tier "中雨", for the rendered amount "2.5mm". -/
theorem intensity_of_average_2_46 :
    hits exampleNow driftSeries = driftSeries ∧
      (floatAverage (hits exampleNow driftSeries)).isPos = true ∧
      (floatAverage (hits exampleNow driftSeries)).lt (.finite 25 10) = true ∧
      (getPrecipitationForecast false id exampleNow { Hourly := driftSeries }).Intensity =
        "中雨" ∧
      (getPrecipitationForecast false id exampleNow { Hourly := driftSeries }).PrecipAmount =
        "2.5mm" := by
  decide

/-- C5 (amended): with test mode off, the current flag false and at least one hit,
when the `float64` average of the hits' amounts is finite and positive the returned
intensity is the tier the threshold table assigns to that average rounded to one
decimal place as `%.1f` renders it: to `k / 10` for the whole number `k` of tenths
nearest to the `float64` value, the even one on a tie.  When the average is `+Inf`
the intensity is the extreme tier "暴雨". -/
theorem getPrecipitationForecast_intensity
    (rangeOrder : List (String × Nat) → List (String × Nat)) (now : Time)
    (weather : WeatherResponse) (hflag : weather.HasCurrentPrecipitation = false)
    (hne : hits now weather.Hourly ≠ []) :
    (∀ (num : Int) (den : Nat),
        floatAverage (hits now weather.Hourly) = .finite num den → 0 < num →
        ∃ k : Nat,
          |(num : ℚ) / (den : ℚ) * 10 - (k : ℚ)| ≤ 1 / 2 ∧
          (|(num : ℚ) / (den : ℚ) * 10 - (k : ℚ)| = 1 / 2 → Even k) ∧
          (getPrecipitationForecast false rangeOrder now weather).Intensity =
            tierOf ((k : ℚ) / 10)) ∧
      (floatAverage (hits now weather.Hourly) = .inf false →
        (getPrecipitationForecast false rangeOrder now weather).Intensity = "暴雨") := by
  have htot := total_of_hits (hits now weather.Hourly)
  have hlen : ((hits now weather.Hourly).map periodOf).length = (hits now weather.Hourly).length :=
    List.length_map _ _
  constructor
  · intro num den havg hpos
    unfold floatAverage at havg
    have hwf : ∀ a b, floatTotal ((hits now weather.Hourly).map fun h => h.Precip) =
        .finite a b → 0 < b :=
      floatTotal_den_pos _ Float64.zero (by
        intro a b h
        simp only [Float64.zero, Float64.finite.injEq] at h
        omega)
    obtain ⟨hp, hden, hbound⟩ := divLen_finite_pos _ _ num den hwf havg hpos
    have htext : avgText ((hits now weather.Hourly).map periodOf) =
        sprintf1 (.finite num den) := by
      simp only [avgText, htot, hp, if_true, hlen, havg]
    have hdpos : 0 < den := by rw [hden]; exact scale64_pos
    have hb := (roundNearestEven_bounds (num.natAbs * 10) den hdpos).1
    have hround := roundNearestEven_spec (num.natAbs * 10) den hdpos
    have hcast : ((num.natAbs * 10 : Nat) : ℚ) / (den : ℚ) = (num : ℚ) / (den : ℚ) * 10 := by
      have h1 : ((num.natAbs : Nat) : ℚ) = (num : ℚ) := by
        rw [← Int.cast_natCast, Int.natAbs_of_nonneg (le_of_lt hpos)]
      rw [Nat.cast_mul, h1]
      push_cast
      ring
    rw [hcast] at hround
    have hk : 2 * (roundTenths num.natAbs den * scale64) + 10 * topStep <
        2 * (10 * limit64) := by
      have hlt := scale64_lt_topStep
      unfold roundTenths
      have e1 : 2 * den * roundNearestEven (num.natAbs * 10) den =
          2 * (roundNearestEven (num.natAbs * 10) den * scale64) := by rw [hden]; ring
      rw [e1] at hb
      generalize roundNearestEven (num.natAbs * 10) den * scale64 = X at hb ⊢
      omega
    refine ⟨roundTenths num.natAbs den, hround.1, hround.2, ?_⟩
    rw [forecast_of_hits rangeOrder now weather hflag hne, htext]
    exact intensityOf_sprintf1 num den hpos hk
  · intro havg
    unfold floatAverage at havg
    have hp := divLen_inf_pos _ _ havg
    have htext : avgText ((hits now weather.Hourly).map periodOf) = "+Inf" := by
      simp only [avgText, htot, hp, if_true, hlen, havg]
      rfl
    have hinf : intensityOf "+Inf" = "暴雨" := by decide
    rw [forecast_of_hits rangeOrder now weather hflag hne, htext]
    exact hinf

/-- Witness of C5 (amended): hits of 1.0 and 4.0 have average 2.5, rendered "2.5",
and the intensity is the moderate tier "中雨". -/
theorem getPrecipitationForecast_intensity_witness :
    ({ Hourly := gapSeries } : WeatherResponse).HasCurrentPrecipitation = false ∧
    hits exampleNow gapSeries ≠ [] ∧
    (floatAverage (hits exampleNow gapSeries)).isPos = true ∧
    (getPrecipitationForecast false id exampleNow { Hourly := gapSeries }).Intensity = "中雨" ∧
    (getPrecipitationForecast false id exampleNow { Hourly := gapSeries }).PrecipAmount =
      "2.5mm" ∧
    ((∀ (num : Int) (den : Nat),
        floatAverage (hits exampleNow gapSeries) = .finite num den → 0 < num →
        ∃ k : Nat,
          |(num : ℚ) / (den : ℚ) * 10 - (k : ℚ)| ≤ 1 / 2 ∧
          (|(num : ℚ) / (den : ℚ) * 10 - (k : ℚ)| = 1 / 2 → Even k) ∧
          (getPrecipitationForecast false id exampleNow { Hourly := gapSeries }).Intensity =
            tierOf ((k : ℚ) / 10)) ∧
      (floatAverage (hits exampleNow gapSeries) = .inf false →
        (getPrecipitationForecast false id exampleNow { Hourly := gapSeries }).Intensity =
          "暴雨")) :=
  ⟨rfl, by decide, by decide, by decide, by decide,
    getPrecipitationForecast_intensity id exampleNow { Hourly := gapSeries } rfl (by decide)⟩

theorem floatTotal_zero (amounts : List String)
    (h : ∀ s ∈ amounts, zeroOrUnparseable s = true) :
    floatTotal amounts = .finite 0 1 := by
  unfold floatTotal
  have hz : Float64.zero = .finite 0 1 := rfl
  rw [hz]
  induction amounts with
  | nil => rfl
  | cons s rest ih =>
    have hs := h s (List.mem_cons_self s rest)
    have hrest : ∀ t ∈ rest, zeroOrUnparseable t = true :=
      fun t ht => h t (List.mem_cons_of_mem s ht)
    simp only [List.foldl_cons]
    unfold zeroOrUnparseable at hs
    cases hp : parseFloat s with
    | none => exact ih hrest
    | some v =>
      rw [hp] at hs
      cases v with
      | finite a b =>
        simp only [Float64.isZero, decide_eq_true_eq] at hs
        subst hs
        have hadd : (Float64.finite 0 1).add (.finite 0 b) = .finite 0 1 := by
          simp [Float64.add, roundFloat64]
        simp only [hadd]
        exact ih hrest
      | inf t => simp [Float64.isZero] at hs
      | nan => simp [Float64.isZero] at hs

/-- C9: with test mode off, the current flag false and at least one hit, when the
`float64` total of the hits' amounts is exactly zero the average amount is exactly
zero, the forecast still has `WillPrecipitate = true`, and its intensity is the empty
string, the amount being the bare unit.  The total is exactly zero whenever every hit
is without a numeric amount: its amount text does not parse, or parses to zero. -/
theorem getPrecipitationForecast_zero_average
    (rangeOrder : List (String × Nat) → List (String × Nat)) (now : Time)
    (weather : WeatherResponse) (hflag : weather.HasCurrentPrecipitation = false)
    (hne : hits now weather.Hourly ≠ []) :
    ((floatTotal ((hits now weather.Hourly).map fun h => h.Precip)).isZero = true →
        (floatAverage (hits now weather.Hourly)).isZero = true ∧
        (getPrecipitationForecast false rangeOrder now weather).WillPrecipitate = true ∧
        (getPrecipitationForecast false rangeOrder now weather).Intensity = "" ∧
        (getPrecipitationForecast false rangeOrder now weather).PrecipAmount = "mm") ∧
      ((∀ h ∈ hits now weather.Hourly, zeroOrUnparseable h.Precip = true) →
        (floatTotal ((hits now weather.Hourly).map fun h => h.Precip)).isZero = true) := by
  constructor
  · intro hz
    have htot := total_of_hits (hits now weather.Hourly)
    have hlenpos : 1 ≤ (hits now weather.Hourly).length := List.length_pos.2 hne
    have hl := ofLen_ne_zero _ hlenpos
    cases hv : floatTotal ((hits now weather.Hourly).map fun h => h.Precip) with
    | inf t => rw [hv] at hz; simp [Float64.isZero] at hz
    | nan => rw [hv] at hz; simp [Float64.isZero] at hz
    | finite a b =>
      rw [hv] at hz
      simp only [Float64.isZero, decide_eq_true_eq] at hz
      subst hz
      have havg : floatAverage (hits now weather.Hourly) = .finite 0 1 := by
        unfold floatAverage
        rw [hv]
        simp [Float64.divLen, hl, roundFloat64]
      have htext : avgText ((hits now weather.Hourly).map periodOf) = "" := by
        simp [avgText, htot, hv, Float64.isPos]
      have hempty : intensityOf "" = "" := by decide
      rw [forecast_of_hits rangeOrder now weather hflag hne, htext, havg]
      exact ⟨rfl, rfl, hempty, rfl⟩
  · intro hzero
    have hz : floatTotal ((hits now weather.Hourly).map fun h => h.Precip) = .finite 0 1 := by
      apply floatTotal_zero
      intro s hs
      obtain ⟨h, hh, rfl⟩ := List.mem_map.1 hs
      exact hzero h hh
    rw [hz]
    rfl

/-- Witness of C9: two hits flagged by their description alone, with amounts "0.0"
and "", give a forecast with empty intensity. -/
theorem getPrecipitationForecast_zero_average_witness :
    ({ Hourly := keywordOnlySeries } : WeatherResponse).HasCurrentPrecipitation = false ∧
    hits exampleNow keywordOnlySeries ≠ [] ∧
    (∀ h ∈ hits exampleNow keywordOnlySeries, zeroOrUnparseable h.Precip = true) ∧
    (floatTotal ((hits exampleNow keywordOnlySeries).map fun h => h.Precip)).isZero = true ∧
    (floatAverage (hits exampleNow keywordOnlySeries)).isZero = true ∧
    (getPrecipitationForecast false id exampleNow
      { Hourly := keywordOnlySeries }).WillPrecipitate = true ∧
    (getPrecipitationForecast false id exampleNow
      { Hourly := keywordOnlySeries }).Intensity = "" ∧
    (getPrecipitationForecast false id exampleNow
      { Hourly := keywordOnlySeries }).PrecipAmount = "mm" :=
  ⟨rfl, by decide, by decide, by decide,
    (getPrecipitationForecast_zero_average id exampleNow { Hourly := keywordOnlySeries } rfl
      (by decide)).1 (by decide)⟩

/-- The forecast on amounts that exercise the `float64` arithmetic: decimal ties of
the text that are no ties of the binary value, sums that round, and the spellings
`strconv.ParseFloat` accepts or rejects. -/
theorem rainForecast_examples :
    rainForecast ["2.45"] = ("中雨", "2.5mm") ∧
      rainForecast ["1.1", "3.8"] = ("中雨", "2.5mm") ∧
      rainForecast ["9.95"] = ("中雨", "9.9mm") ∧
      rainForecast ["24.95"] = ("大雨", "24.9mm") ∧
      rainForecast ["0.25"] = ("小雨", "0.2mm") ∧
      rainForecast ["0.1", "0.2", "-0.3"] = ("小雨", "0.0mm") ∧
      rainForecast ["1e1"] = ("大雨", "10.0mm") ∧
      rainForecast ["0x1p4"] = ("大雨", "16.0mm") ∧
      rainForecast ["1_0"] = ("大雨", "10.0mm") ∧
      rainForecast ["Inf"] = ("暴雨", "+Infmm") ∧
      rainForecast ["NaN"] = ("", "mm") ∧
      rainForecast ["1e400"] = ("", "mm") ∧
      rainForecast ["abc", ""] = ("", "mm") := by
  decide

end WeatherReminder
